import Mathlib

/-!
Verification of the expression subsystem of the pongo2 template engine
(value coercion, comparison, iteration, the variable-path resolver, the
argument validators, the test evaluator and the autoescape wrapper).

The Go sources are shallowly embedded: reflective host data
(`reflect.Value`) becomes the inductive `RVal`, the engine's `*Value`
becomes the structure `Value`, fallible code returns `Except GoErr`.
Modelling conventions, noted where they apply:
 - the platform is 64-bit (`int` = `int64`, `math.MaxInt = 2^63-1`);
 - strings are treated at the character level (for ASCII data, where Go's
   byte indexing and the model's character indexing coincide);
 - float64 values are kept as exact rationals plus the IEEE specials
   (binary rounding of parsed decimals is not modelled);
 - host data contains no `Template` handles and no `fmt.Stringer`
   implementations other than `time.Time`, and Go interface wrapping is
   already resolved (values are concrete).
-/

set_option maxHeartbeats 1000000

namespace Pongo2

/-- Model of Go float64: finite values are exact rationals; the IEEE special
values are explicit constructors. -/
inductive GoFloat where
  | fin (q : ℚ)
  | posInf
  | negInf
  | nan
  deriving DecidableEq

/-- Go `<` on float64; NaN compares false against everything. -/
def GoFloat.lt : GoFloat → GoFloat → Bool
  | .fin a, .fin b => a < b
  | .fin _, .posInf => true
  | .negInf, .fin _ => true
  | .negInf, .posInf => true
  | _, _ => false

/-- Go `==` on float64; NaN is unequal to everything, itself included. -/
def GoFloat.feq : GoFloat → GoFloat → Bool
  | .fin a, .fin b => a == b
  | .posInf, .posInf => true
  | .negInf, .negInf => true
  | _, _ => false

/-- Embedding of the reflective host data reachable through a
`reflect.Value`. A `func` value carries its reflected signature and — since
no claim needs argument-dependent behaviour — the value/error it returns:
`wantsCtx` models a first declared parameter of type `*ExecutionContext`,
`numIn`/`numOut`/`variadic` the reflected arity, `retIsValuePtr` whether the
first result is a `*pongo2.Value` (then `retSafe` is its safe flag), and
`retErr` a non-nil second return value. `pvalue` is a host-held
`*pongo2.Value`. `nilptr` is a typed nil pointer, `invalid` the invalid
`reflect.Value` (untyped nil). `strct` fields carry an anonymous-embedding
flag; `methods` models the value's method set (entries are `func` values by
convention). `time` is a `time.Time` instant. -/
inductive RVal where
  | invalid
  | int (n : Int)
  | uint (n : Nat)
  | float (f : GoFloat)
  | bool (b : Bool)
  | str (s : String)
  | slice (xs : List RVal)
  | array (xs : List RVal)
  | map (entries : List (RVal × RVal))
  | strct (fields : List (String × Bool × RVal)) (methods : List (String × RVal))
  | time (t : Int)
  | chan (sz : Nat)
  | func (wantsCtx variadic : Bool) (numIn numOut : Nat)
      (retIsValuePtr : Bool) (ret : RVal) (retSafe : Bool) (retErr : Option String)
  | ptr (target : RVal)
  | nilptr
  | pvalue (inner : RVal) (isSafe : Bool)

/-- The reflect.Kind classification used by the embedded code. -/
inductive RKind where
  | invalid | int | uint | float | bool | str | slice | array | map | struct | chan | func | ptr
  deriving DecidableEq

def kindName : RKind → String
  | .invalid => "invalid"
  | .int => "int"
  | .uint => "uint"
  | .float => "float64"
  | .bool => "bool"
  | .str => "string"
  | .slice => "slice"
  | .array => "array"
  | .map => "map"
  | .struct => "struct"
  | .chan => "chan"
  | .func => "func"
  | .ptr => "ptr"

/-- reflect.Value.Kind of a model value; `time.Time` and the `Value` struct
behind a `*pongo2.Value` are structs, pointers (incl. typed nil) are `ptr`. -/
def RVal.kind : RVal → RKind
  | .invalid => .invalid
  | .int _ => .int
  | .uint _ => .uint
  | .float _ => .float
  | .bool _ => .bool
  | .str _ => .str
  | .slice _ => .slice
  | .array _ => .array
  | .map _ => .map
  | .strct _ _ => .struct
  | .time _ => .struct
  | .chan _ => .chan
  | .func .. => .func
  | .ptr _ => .ptr
  | .nilptr => .ptr
  | .pvalue _ _ => .ptr

def RVal.isValid : RVal → Bool
  | .invalid => false
  | _ => true

/-- getResolvedValue from value.go: unwrap pointers (and interfaces, which
the model keeps resolved) down to the underlying value. A nil pointer
unwraps to the invalid value; a `*pongo2.Value` unwraps to the `Value`
struct itself, whose fields are unexported — modelled as a bare struct. -/
def resolvedValue : RVal → RVal
  | .ptr t => resolvedValue t
  | .nilptr => .invalid
  | .pvalue _ _ => .strct [] []
  | v => v

/-- reflect.Value.Len for the kinds the embedded code measures (string
length is in bytes in Go; the model counts characters, see the header). -/
def lenOfR : RVal → Nat
  | .slice xs => xs.length
  | .array xs => xs.length
  | .map es => es.length
  | .chan sz => sz
  | .str s => s.length
  | _ => 0

mutual
/-- Go type comparability (slices, maps and funcs are not comparable;
arrays and structs are comparable when their elements are — the model
decides this on the element values rather than the element type). -/
def comparableR : RVal → Bool
  | .slice _ => false
  | .map _ => false
  | .func .. => false
  | .array xs => comparableList xs
  | .strct fs _ => comparableFields fs
  | _ => true
def comparableList : List RVal → Bool
  | [] => true
  | x :: rest => comparableR x && comparableList rest
def comparableFields : List (String × Bool × RVal) → Bool
  | [] => true
  | (_, _, v) :: rest => comparableR v && comparableFields rest
end

/-- The engine's Value from value.go: a wrapped host datum plus the safe
flag used by autoescape. -/
structure Value where
  val : RVal
  safe : Bool

/-- AsValue from value.go. -/
def AsValue (v : RVal) : Value := ⟨v, false⟩

/-- AsSafeValue from value.go. -/
def AsSafeValue (v : RVal) : Value := ⟨v, true⟩

def nilValue : Value := ⟨.invalid, false⟩

/-- IsTemplate from value.go. Host data carries no Template handles in the
model (see the header), so this is always false. -/
def Value.IsTemplate (_ : Value) : Bool := false

/-- IsString from value.go: string kind, or a Template handle. -/
def Value.IsString (v : Value) : Bool :=
  (resolvedValue v.val).kind == .str || v.IsTemplate

def Value.IsBool (v : Value) : Bool := (resolvedValue v.val).kind == .bool

def Value.IsFloat (v : Value) : Bool := (resolvedValue v.val).kind == .float

/-- IsInteger from value.go: any signed or unsigned integer kind. -/
def Value.IsInteger (v : Value) : Bool :=
  (resolvedValue v.val).kind == .int || (resolvedValue v.val).kind == .uint

def Value.IsNumber (v : Value) : Bool := v.IsInteger || v.IsFloat

/-- IsTime from value.go: a type assertion on the unresolved interface, so
it holds only for a directly wrapped time.Time (not behind a pointer). -/
def Value.IsTime (v : Value) : Bool :=
  match v.val with
  | .time _ => true
  | _ => false

def Value.IsNil (v : Value) : Bool := !(resolvedValue v.val).isValid

def Value.IsMap (v : Value) : Bool := (resolvedValue v.val).kind == .map

def Value.IsStruct (v : Value) : Bool := (resolvedValue v.val).kind == .struct

def Value.IsSliceOrArray (v : Value) : Bool :=
  (resolvedValue v.val).kind == .slice || (resolvedValue v.val).kind == .array

def Value.IsIterable (v : Value) : Bool :=
  match (resolvedValue v.val).kind with
  | .array | .slice | .map | .str => true
  | _ => false

/-- math.MaxInt64 (and math.MaxInt on the modelled 64-bit platform). -/
def maxInt64 : Int := 9223372036854775807

/-- math.MinInt64; also the amd64 result of an out-of-range
float-to-integer conversion (implementation-defined in the Go spec). -/
def minInt64 : Int := -9223372036854775808

def digitVal (c : Char) : Option Nat :=
  if '0' ≤ c ∧ c ≤ '9' then some (c.toNat - '0'.toNat)
  else if 'a' ≤ c ∧ c ≤ 'z' then some (c.toNat - 'a'.toNat + 10)
  else if 'A' ≤ c ∧ c ≤ 'Z' then some (c.toNat - 'A'.toNat + 10)
  else none

def parseDigitsAux (base : Nat) : Nat → List Char → Option Nat
  | acc, [] => some acc
  | acc, c :: rest =>
    match digitVal c with
    | some d => if d < base then parseDigitsAux base (acc * base + d) rest else none
    | none => none

def parseDigits (base : Nat) : List Char → Option Nat
  | [] => none
  | cs => parseDigitsAux base 0 cs

/-- Value component of strconv.ParseInt(s, base, 64) as the embedded code
uses it (the error is discarded): syntax errors yield 0, out-of-range
values are clamped to the int64 bounds exactly as ParseInt clamps them. -/
def goParseInt64 (base : Nat) (s : String) : Int :=
  let step : Bool × List Char :=
    match s.data with
    | '+' :: rest => (false, rest)
    | '-' :: rest => (true, rest)
    | cs => (false, cs)
  match parseDigits base step.2 with
  | none => 0
  | some n =>
    if step.1 then
      if (n : Int) > 2 ^ 63 then minInt64 else -(n : Int)
    else if (n : Int) ≥ 2 ^ 63 then maxInt64 else (n : Int)

def asciiLower (c : Char) : Char :=
  if 'A' ≤ c ∧ c ≤ 'Z' then Char.ofNat (c.toNat + 32) else c

def strEqFold (a b : String) : Bool :=
  a.data.map asciiLower == b.data.map asciiLower

def digitsToNat (ds : List Char) : Nat :=
  ds.foldl (fun acc c => acc * 10 + (c.toNat - '0'.toNat)) 0

/-- Model of strconv.ParseFloat(s, 64). `none` covers every non-nil-error
outcome (syntax error, or range error on overflow/underflow — every caller
in the embedded code discards the value when the error is non-nil). Finite
results are exact rationals; hex floats and digit underscores are outside
the model. -/
def goParseFloat (s : String) : Option GoFloat :=
  let core : List Char → Bool → Option GoFloat := fun cs neg =>
    if strEqFold (String.mk cs) "inf" ∨ strEqFold (String.mk cs) "infinity" then
      some (if neg then .negInf else .posInf)
    else if strEqFold (String.mk cs) "nan" then some .nan
    else
      let intPart := cs.takeWhile Char.isDigit
      let rest1 := cs.dropWhile Char.isDigit
      let step : Option (List Char × List Char) :=
        match rest1 with
        | '.' :: tl => some (tl.takeWhile Char.isDigit, tl.dropWhile Char.isDigit)
        | _ => some ([], rest1)
      match step with
      | none => none
      | some (fracPart, rest2) =>
        if intPart.isEmpty ∧ fracPart.isEmpty then none
        else
          let expo : Option Int :=
            match rest2 with
            | [] => some 0
            | 'e' :: tl | 'E' :: tl =>
              let pair : Bool × List Char :=
                match tl with
                | '+' :: tl2 => (false, tl2)
                | '-' :: tl2 => (true, tl2)
                | _ => (false, tl)
              if pair.2.isEmpty ∨ ¬ pair.2.all Char.isDigit then none
              else some (if pair.1 then -(digitsToNat pair.2 : Int) else (digitsToNat pair.2 : Int))
            | _ => none
          match expo with
          | none => none
          | some e =>
            let mantissa : ℚ := (digitsToNat (intPart ++ fracPart) : ℚ) / (10 ^ fracPart.length : ℚ)
            let q : ℚ := if neg then -(mantissa * (10 : ℚ) ^ e) else mantissa * (10 : ℚ) ^ e
            if |q| ≥ 2 ^ 1024 then none else some (.fin q)
  match s.data with
  | [] => none
  | '+' :: rest => core rest false
  | '-' :: rest => core rest true
  | cs => core cs false

/-- Go truncation of a float64 to int/int64: toward zero; NaN, infinities
and out-of-range values are implementation-defined in Go and modelled as
the amd64 result, minInt64. -/
def truncFloatToInt : GoFloat → Int
  | .fin q =>
    let t : Int := if q ≥ 0 then ⌊q⌋ else ⌈q⌉
    if t < minInt64 ∨ t > maxInt64 then minInt64 else t
  | _ => minInt64

/-- The string branch shared by Value.Integer and Value.Int64 in value.go:
`0x`/`0b` prefixes parse as hex/binary, a leading `0` routes `s[2:]` into
an octal parse (for `0o` prefixes and plain leading-zero strings alike),
anything else parses as a decimal float and truncates, with 0 on error. -/
def integerOfString (s : String) : Int :=
  let viaFloat : Int :=
    match goParseFloat s with
    | none => 0
    | some f => truncFloatToInt f
  match s.data with
  | c0 :: c1 :: rest =>
    if c0 = '0' then
      if c1 = 'x' then goParseInt64 16 (String.mk rest)
      else if c1 = 'b' then goParseInt64 2 (String.mk rest)
      else if c1 = 'o' ∨ c1.isDigit then goParseInt64 8 (String.mk rest)
      else viaFloat
    else viaFloat
  | _ => viaFloat

/-- Value.Integer from value.go (64-bit platform, so `int` is int64):
unsigned values above math.MaxInt saturate there. -/
def Value.Integer (v : Value) : Int :=
  match resolvedValue v.val with
  | .int n => n
  | .uint u => if (u : Int) > maxInt64 then maxInt64 else (u : Int)
  | .float f => truncFloatToInt f
  | .str s => integerOfString s
  | _ => 0

/-- Value.Int64 from value.go; textually a separate function in the source,
identical to Integer on the modelled 64-bit platform (math.MaxInt64 in
place of math.MaxInt). -/
def Value.Int64 (v : Value) : Int :=
  match resolvedValue v.val with
  | .int n => n
  | .uint u => if (u : Int) > maxInt64 then maxInt64 else (u : Int)
  | .float f => truncFloatToInt f
  | .str s => integerOfString s
  | _ => 0

/-- Value.Float from value.go. -/
protected def Value.Float (v : Value) : GoFloat :=
  match resolvedValue v.val with
  | .int n => .fin (n : ℚ)
  | .uint u => .fin (u : ℚ)
  | .float f => f
  | .str s =>
    match goParseFloat s with
    | none => .fin 0
    | some f => f
  | _ => .fin 0

/-- Value.Bool from value.go (protected so the name does not shadow the
Bool type inside the Value namespace). -/
protected def Value.Bool (v : Value) : Bool :=
  match resolvedValue v.val with
  | .bool b => b
  | _ => false

/-- Value.Time from value.go: the wrapped instant, or the zero instant. -/
def Value.Time (v : Value) : Int :=
  match v.val with
  | .time t => t
  | _ => 0

/-- Value.IsTrue from value.go: Pythonic truthiness. -/
def Value.IsTrue (v : Value) : Bool :=
  match resolvedValue v.val with
  | .int n => decide (n ≠ 0)
  | .uint u => decide (u ≠ 0)
  | .float f => !(GoFloat.feq f (.fin 0))
  | .array xs => decide (xs.length > 0)
  | .chan sz => decide (sz > 0)
  | .map es => decide (es.length > 0)
  | .slice xs => decide (xs.length > 0)
  | .str s => decide (s.length > 0)
  | .bool b => b
  | .strct _ _ => true
  | .time _ => true
  | _ => false

/-- Value.Negate from value.go. -/
def Value.Negate (v : Value) : Value :=
  match resolvedValue v.val with
  | .int _ | .uint _ =>
    if v.Integer ≠ 0 then AsValue (.int 0) else AsValue (.int 1)
  | .float _ =>
    if !(GoFloat.feq v.Float (.fin 0)) then AsValue (.float (.fin 0))
    else AsValue (.float (.fin (11 / 10)))
  | .array xs => AsValue (.bool (decide (xs.length = 0)))
  | .chan sz => AsValue (.bool (decide (sz = 0)))
  | .map es => AsValue (.bool (decide (es.length = 0)))
  | .slice xs => AsValue (.bool (decide (xs.length = 0)))
  | .str s => AsValue (.bool (decide (s.length = 0)))
  | .bool b => AsValue (.bool !b)
  | .strct _ _ => AsValue (.bool false)
  | .time _ => AsValue (.bool false)
  | _ => AsValue (.bool true)

/-- Stand-in for time.Time.String() (the exact layout is irrelevant to the
claims; only the Stringer dispatch matters). -/
def timeString (t : Int) : String := "time " ++ toString t

/-- The fmt.Stringer type assertion in Value.String: in the model only
time.Time (directly or behind a pointer, since *time.Time's method set
includes String) implements it. -/
def stringerOf : RVal → Option String
  | .time t => some (timeString t)
  | .ptr (.time t) => some (timeString t)
  | _ => none

def padLeftZeros (s : String) (n : Nat) : String :=
  String.mk (List.replicate (n - s.length) '0') ++ s

/-- fmt "%f" rendering of a finite float64: six fraction digits, rounding
half to even at the last digit. -/
def formatFixed6 (q : ℚ) : String :=
  let sign := if q < 0 then "-" else ""
  let a : ℚ := |q| * 1000000
  let fl : Int := ⌊a⌋
  let r : ℚ := a - (fl : ℚ)
  let n : Int :=
    if r > 1 / 2 then fl + 1
    else if r < 1 / 2 then fl
    else if fl % 2 = 0 then fl else fl + 1
  let m : Nat := n.toNat
  sign ++ toString (m / 1000000) ++ "." ++ padLeftZeros (toString (m % 1000000)) 6

def formatFloat : GoFloat → String
  | .fin q => formatFixed6 q
  | .posInf => "+Inf"
  | .negInf => "-Inf"
  | .nan => "NaN"

/-- Value.String from value.go: empty for nil, Stringer dispatch first,
then by kind; the fallthrough mirrors reflect.Value.String's
`<T Value>` placeholder (with the kind standing in for the type name). -/
protected def Value.String (v : Value) : String :=
  if v.IsNil then ""
  else
    match stringerOf v.val with
    | some s => s
    | none =>
      match resolvedValue v.val with
      | .str s => s
      | .int n => toString n
      | .uint u => toString u
      | .float f => formatFloat f
      | .bool b => if b then "True" else "False"
      | r => "<" ++ kindName r.kind ++ " Value>"

def cmp3 (a b : Int) : Int := if a < b then -1 else if a > b then 1 else 0

/-- Value.compare from value.go. -/
def Value.compare (v other : Value) (caseSensitive : Bool) : Int :=
  if ¬ v.val.isValid ∨ ¬ comparableR v.val then -1
  else if ¬ other.val.isValid ∨ ¬ comparableR other.val then 1
  else if v.IsInteger && other.IsInteger then cmp3 v.Int64 other.Int64
  else if v.IsFloat && other.IsFloat then
    if GoFloat.lt v.Float other.Float then -1
    else if GoFloat.lt other.Float v.Float then 1
    else 0
  else if v.IsTime && other.IsTime then cmp3 v.Time other.Time
  else if v.IsBool && other.IsBool then
    if v.Bool && !other.Bool then 1
    else if other.Bool && !v.Bool then -1
    else 0
  else if (v.IsSliceOrArray && other.IsSliceOrArray) || (v.IsMap && other.IsMap) then
    cmp3 (lenOfR (resolvedValue v.val)) (lenOfR (resolvedValue other.val))
  else if v.IsNil && !other.IsNil then -1
  else if other.IsNil && !v.IsNil then 1
  else
    let va := if caseSensitive then v.String else (v.String).toLower
    let vb := if caseSensitive then other.String else (other.String).toLower
    if va < vb then -1 else if vb < va then 1 else 0

/-- Value.Compare from value.go. -/
def Value.Compare (v other : Value) : Int := v.compare other true

/-- Value.CompareCaseFold from value.go. -/
def Value.CompareCaseFold (v other : Value) : Int := v.compare other false

/-- The Less shared by sortedKeys.Less and valuesList.Less in value.go
(the two method bodies are textually identical). -/
def lessV (vi vj : Value) : Bool :=
  if vi.IsInteger && vj.IsInteger then decide (vi.Integer < vj.Integer)
  else if vi.IsFloat && vj.IsFloat then GoFloat.lt vi.Float vj.Float
  else if vi.IsString then decide (vi.String < vj.String)
  else decide (vi.Compare vj = -1)

/-- sortedKeys.Less from value.go, on raw map keys. -/
def sortedKeysLess (a b : RVal) : Bool := lessV (Value.mk a false) (Value.mk b false)

def insertBy (less : α → α → Bool) (x : α) : List α → List α
  | [] => [x]
  | y :: rest => if less y x then y :: insertBy less x rest else x :: y :: rest

/-- Model of sort.Sort / sort.SliceStable: a stable insertion sort by the
given Less. On the duplicate-free keys of a Go map this is the unique
sorted order; on ties the model commits to stability. -/
def sortBy (less : α → α → Bool) : List α → List α
  | [] => []
  | x :: rest => insertBy less x (sortBy less rest)

/-- Go `==` on map keys; the model's maps carry scalar keys. -/
def goKeyEq : RVal → RVal → Bool
  | .str a, .str b => a == b
  | .int a, .int b => a == b
  | .uint a, .uint b => a == b
  | .bool a, .bool b => a == b
  | .time a, .time b => a == b
  | .float a, .float b => GoFloat.feq a b
  | _, _ => false

/-- reflect.Value.MapIndex with a key taken from MapKeys. -/
def mapIndexR (entries : List (RVal × RVal)) (k : RVal) : RVal :=
  match entries.find? (fun e => goKeyEq e.1 k) with
  | some e => e.2
  | none => .invalid

/-- The iteration loops of IterateOrder: call `fn` on each (key, value)
pair in order, stopping early when it returns false. -/
def runIter (fn : σ → Nat → Nat → Value → Option Value → σ × Bool) (count : Nat) :
    Nat → List (Value × Option Value) → σ → σ
  | _, [], s => s
  | idx, kv :: rest, s =>
    let r := fn s idx count kv.1 kv.2
    if r.2 then runIter fn count (idx + 1) rest r.1 else r.1

/-- Value.IterateOrder from value.go, with the callback side effects made
explicit: `fn` threads a state and returns the continue flag, `empty` is
the empty callback. Go leaves the order of reflect MapKeys unspecified
(the runtime randomizes map range order), so the model takes that order
as the argument `mapKeys`: a run of the source corresponds to some
permutation of the map's keys supplied there, and nothing may depend on
which one. -/
def Value.IterateOrder (v : Value) (mapKeys : List RVal)
    (fn : σ → Nat → Nat → Value → Option Value → σ × Bool)
    (empty : σ → σ) (s : σ) (reverse sorted : Bool) : σ :=
  match resolvedValue v.val with
  | .map entries =>
    let keys0 := mapKeys
    let keys :=
      if sorted then
        if reverse then sortBy (fun a b => sortedKeysLess b a) keys0
        else sortBy sortedKeysLess keys0
      else keys0
    let keyLen := keys.length
    let s1 := runIter fn keyLen 0
      (keys.map (fun k => (Value.mk k false, some (Value.mk (mapIndexR entries k) false)))) s
    if keyLen = 0 then empty s1 else s1
  | .array xs | .slice xs =>
    let itemCount := xs.length
    let items := xs.map (fun x => Value.mk x false)
    let items2 :=
      if sorted then
        if reverse then sortBy (fun a b => lessV b a) items else sortBy lessV items
      else if reverse then items.reverse else items
    if items2.length > 0 then
      runIter fn itemCount 0 (items2.map (fun it => (it, none))) s
    else empty s
  | .str st =>
    let rs0 := st.data
    let charCount := rs0.length
    if charCount > 0 then
      let rs1 := if sorted then sortBy (fun a b => decide (a < b)) rs0 else rs0
      let rs2 := if reverse then rs1.reverse else rs1
      runIter fn charCount 0
        (rs2.map (fun c => (Value.mk (.str (String.mk [c])) false, none))) s
    else empty s
  | _ => empty s

/-- Value.Iterate from value.go. -/
def Value.Iterate (v : Value) (mapKeys : List RVal)
    (fn : σ → Nat → Nat → Value → Option Value → σ × Bool)
    (empty : σ → σ) (s : σ) : σ :=
  v.IterateOrder mapKeys fn empty s false false

/-- The pongo2 Error type from error.go as the validators build it: a
sender tag and the origin error's message. -/
structure Error where
  Sender : String
  OrigError : String

/-- Args from args.go: positional arguments plus named arguments (the
kwArgs map is modelled as an association list). -/
structure Args where
  args : List Value
  kwArgs : List (String × Value)

def Args.Len (a : Args) : Nat := a.args.length

def Args.HasNamed (a : Args) (name : String) : Bool :=
  a.kwArgs.any (fun kv => kv.1 == name)

def Args.First (a : Args) : Value :=
  match a.args.head? with
  | some v => v
  | none => ⟨.invalid, false⟩

/-- The argRange string ExpectArgs builds for its error message. -/
def argRangeStr (min max : Int) : String :=
  if min = max then toString min
  else if max = -1 then "at least " ++ toString min
  else toString min ++ "-" ++ toString max

/-- ExpectArgs from args.go. -/
def ExpectArgs (typ name : String) (min max : Int) (args : Args) : Option Error :=
  let argLen : Int := args.Len
  if argLen < min ∨ (max ≠ -1 ∧ argLen > max) then
    some ⟨typ ++ ":" ++ name,
      "invalid parameter count: " ++ typ ++ " " ++ name ++ " expected "
        ++ argRangeStr min max ++ " parameter(s), received " ++ toString argLen⟩
  else none

/-- The named-argument validity scan of ExpectNamedArgs: the first named
argument whose name is in neither list (scanning in map order, which the
model fixes as list order). -/
def findInvalidName (required optional : List String) : List (String × Value) → Option String
  | [] => none
  | (argName, _) :: rest =>
    if required.contains argName || optional.contains argName then
      findInvalidName required optional rest
    else some argName

/-- The `invalid` computation of ExpectNamedArgs: an exact positional
count is fine; more positionals than required+optional is invalid; fewer
positionals than required is invalid unless every remaining required name
is supplied as a named argument. -/
def namedArgsInvalid (required optional : List String) (args : Args) : Bool :=
  if args.Len = required.length then false
  else if args.Len > required.length + optional.length then true
  else if args.Len < required.length then
    (required.drop args.Len).any (fun n => !(args.HasNamed n))
  else false

/-- ExpectNamedArgs from args.go. -/
def ExpectNamedArgs (typ name : String) (required optional : List String) (args : Args) :
    Option Error :=
  let requiredCount := required.length
  let totalCount := requiredCount + optional.length
  match findInvalidName required optional args.kwArgs with
  | some argName => some ⟨typ ++ ":" ++ name, "invalid parameter name: " ++ argName⟩
  | none =>
    if namedArgsInvalid required optional args then
      let argRange :=
        if requiredCount = totalCount then toString requiredCount
        else toString requiredCount ++ "-" ++ toString totalCount
      some ⟨typ ++ ":" ++ name,
        "invalid parameter count: " ++ typ ++ " " ++ name ++ " expected "
          ++ argRange ++ " parameter(s), received " ++ toString args.Len⟩
    else none

/-- Errors of the embedded evaluator code; each constructor mirrors one
distinct error site in the Go sources (positions/tokens are outside the
model, so ctx.Error wrapping is the identity here). -/
inductive GoErr where
  | disabledFunction
  | cantAccessIndex (kind v : String)
  | cantAccessField (kind v : String)
  | notAFunction (v kind : String)
  | argCountMismatch (numIn : Nat) (v : String) (given : Nat)
  | badOutputCount (v : String)
  | invalidParameter
  | hostError (msg : String)
  | unknownVariableType
  | panicUnimplemented
  | filterError (name msg : String)
  | testNotFound (name : String)
  | testError (msg : String)
  deriving DecidableEq

/-- A pongo2 Context: a string-keyed map of host data, modelled as an
association list (map iteration order is the list order). -/
abbrev Context := List (String × RVal)

/-- The per-render ExecutionContext fields the embedded code reads. -/
structure ExecutionContext where
  Public : Context := []
  Private : Context := []
  Autoescape : Bool := false
  DisableContextFunctions : Bool := false
  DisableNestedFunctions : Bool := false
  IgnoreVariableCase : Bool := false
  DeepResolve : Bool := false

/-- The varType constants of variable.go. -/
inductive PartTyp where
  | int | ident | subscript | array | nilMark | dict
  deriving DecidableEq

/-- An evaluator in argument/subscript position, modelled by the value it
evaluates to in the ambient context; `isNFV` records whether it is a
*nodeFilteredVariable (resolveArrayDefinition and resolveDictDefinition
type-assert on that). -/
structure SubEval where
  isNFV : Bool := true
  res : Except GoErr Value := .ok nilValue

/-- variablePart from variable.go. -/
structure VariablePart where
  typ : PartTyp
  s : String := ""
  i : Int := 0
  subscript : Option SubEval := none
  isFunctionCall : Bool := false
  callingArgs : List (Except GoErr Value) := []

/-- variableResolver from variable.go. -/
structure VariableResolver where
  parts : List VariablePart

/-- variablePart.String from variable.go (it panics on varTypeNil; the
placeholder below stands in for that panic — the result only feeds error
messages). -/
def partString (p : VariablePart) : String :=
  match p.typ with
  | .int => toString p.i
  | .ident => p.s
  | .subscript => "[subscript]"
  | .array => "[array]"
  | .dict => "[dict]"
  | .nilMark => "!panic"

/-- variableResolver.String from variable.go. -/
def vrString (vr : VariableResolver) : String :=
  String.intercalate "." (vr.parts.map partString)

/-- variableResolver.lookupInContext from variable.go. -/
def lookupInContext (m : Context) (key : String) (ignoreVariableCase : Bool) : Option RVal :=
  match m.find? (fun kv => kv.1 == key) with
  | some kv => some kv.2
  | none =>
    if ignoreVariableCase then
      match m.find? (fun kv => kv.1.toLower == key.toLower) with
      | some kv => some kv.2
      | none => none
    else none

/-- variableResolver.lookupInitialValue from variable.go: private scope
first, then public; a miss is the invalid value (reflect.ValueOf(nil)). -/
def lookupInitialValue (ctx : ExecutionContext) (key : String) : RVal :=
  match lookupInContext ctx.Private key ctx.IgnoreVariableCase with
  | some v => v
  | none =>
    match lookupInContext ctx.Public key ctx.IgnoreVariableCase with
    | some v => v
    | none => .invalid

/-- variableResolver.unpackValue from variable.go. -/
def unpackValue (current : RVal) (isSafe : Bool) : RVal × Bool :=
  match current with
  | .pvalue inner safe => (inner, safe)
  | _ => (current, isSafe)

/-- reflect.Value.MethodByName as resolveNextPart uses it: the model
attaches method sets to structs, and a pointer sees its target's methods;
entries are func values by convention. -/
def methodByName : RVal → String → Option RVal
  | .ptr t, n => methodByName t n
  | .strct _ ms, n => (ms.find? (fun m => m.1 == n)).map (fun m => m.2)
  | _, _ => none

/-- The pointer-unwrapping loop of resolveStructField (a nil pointer stops
the loop and then fails the struct check). -/
def derefPtrs : RVal → RVal
  | .ptr t => derefPtrs t
  | v => v

def findFieldDirect (fields : List (String × Bool × RVal)) (name : String) : Option RVal :=
  (fields.find? (fun f => f.1 == name)).map (fun f => f.2.2)

def findFieldFold (fields : List (String × Bool × RVal)) (name : String) : Option RVal :=
  (fields.find? (fun f => f.1.toLower == name.toLower)).map (fun f => f.2.2)

mutual
/-- resolveStructField from variable.go: direct field, then (with
ignoreCase) a case-insensitive match, then a scan of anonymous embedded
structs; reflect's own promoted-field search is subsumed by the explicit
anonymous scan in the model. A missing field is the invalid value. -/
def resolveStructField (current : RVal) (fieldName : String) (ignoreCase : Bool) : RVal :=
  match current with
  | .strct fields _ =>
    match findFieldDirect fields fieldName with
    | some v => v
    | none =>
      match (if ignoreCase then findFieldFold fields fieldName else none) with
      | some v => v
      | none => scanAnon fields fieldName ignoreCase
  | _ => .invalid

def scanAnon (fields : List (String × Bool × RVal)) (fieldName : String) (ignoreCase : Bool) :
    RVal :=
  match fields with
  | [] => .invalid
  | (_, anon, v) :: rest =>
    if anon then
      match anonField v fieldName ignoreCase with
      | some r => r
      | none => scanAnon rest fieldName ignoreCase
    else scanAnon rest fieldName ignoreCase

def anonField (v : RVal) (fieldName : String) (ignoreCase : Bool) : Option RVal :=
  match v with
  | .ptr t => anonField t fieldName ignoreCase
  | .strct fs ms =>
    let r := resolveStructField (.strct fs ms) fieldName ignoreCase
    if r.isValid then some r else none
  | _ => none
end

/-- reflect.Value.String (the raw accessor, not the engine's coercion). -/
def reflectString (v : RVal) : String :=
  match v with
  | .str s => s
  | k => "<" ++ kindName k.kind ++ " Value>"

/-- resolveMapStringKey from variable.go. A missing key is the invalid
value. -/
def resolveMapStringKey (entries : List (RVal × RVal)) (key : String) (ignoreCase : Bool) :
    RVal :=
  match entries.find? (fun e => goKeyEq e.1 (.str key)) with
  | some e => e.2
  | none =>
    if ignoreCase then
      match entries.find? (fun e => (reflectString e.1).toLower == key.toLower) with
      | some e => e.2
      | none => .invalid
    else .invalid

/-- resolveIntIndex from variable.go: character of a string (byte-indexed
in Go, character-indexed in the model — see the header), element of an
array/slice; out of range is a nil result, any other kind an error. -/
def resolveIntIndex (vrStr : String) (current : RVal) (part : VariablePart) :
    Except GoErr (RVal × Bool) :=
  match current with
  | .str s =>
    if 0 ≤ part.i ∧ part.i < (s.length : Int) then
      .ok (.str (String.mk [s.data.getD part.i.toNat ' ']), false)
    else .ok (.invalid, true)
  | .array xs =>
    if 0 ≤ part.i ∧ part.i < (xs.length : Int) then .ok (xs.getD part.i.toNat .invalid, false)
    else .ok (.invalid, true)
  | .slice xs =>
    if 0 ≤ part.i ∧ part.i < (xs.length : Int) then .ok (xs.getD part.i.toNat .invalid, false)
    else .ok (.invalid, true)
  | _ => .error (.cantAccessIndex (kindName current.kind) vrStr)

def entriesOfR : RVal → List (RVal × RVal)
  | .map es => es
  | _ => []

/-- resolveIdentifier from variable.go: struct field or map key by name;
any other kind is an error. -/
def resolveIdentifier (vrStr : String) (current : RVal) (part : VariablePart)
    (ignoreCase : Bool) : Except GoErr (RVal × Bool) :=
  match current.kind with
  | .struct => .ok (resolveStructField current part.s ignoreCase, false)
  | .map => .ok (resolveMapStringKey (entriesOfR current) part.s ignoreCase, false)
  | k => .error (.cantAccessField (kindName k) vrStr)

/-- The AssignableTo check of resolveSubscript's map case, modelled as
kind agreement with the map's keys (the empty map accepts any key — the
model carries no key type for it; either way the lookup yields nil). -/
def assignableToKey (k : RVal) (entries : List (RVal × RVal)) : Bool :=
  match entries with
  | [] => true
  | e :: _ => k.kind == e.1.kind

/-- resolveSubscript from variable.go: the subscript expression evaluates
first, then routes by the target's kind. -/
def resolveSubscript (ctx : ExecutionContext) (vrStr : String) (current : RVal)
    (part : VariablePart) : Except GoErr (RVal × Bool) :=
  match (match part.subscript with | some se => se.res | none => .ok nilValue) with
  | .error e => .error e
  | .ok sv =>
    match current with
    | .str s =>
      let si := sv.Integer
      if 0 ≤ si ∧ si < (s.length : Int) then
        .ok (.str (String.mk [s.data.getD si.toNat ' ']), false)
      else .ok (.invalid, true)
    | .array xs =>
      let si := sv.Integer
      if 0 ≤ si ∧ si < (xs.length : Int) then .ok (xs.getD si.toNat .invalid, false)
      else .ok (.invalid, true)
    | .slice xs =>
      let si := sv.Integer
      if 0 ≤ si ∧ si < (xs.length : Int) then .ok (xs.getD si.toNat .invalid, false)
      else .ok (.invalid, true)
    | .strct _ _ => .ok (resolveStructField current sv.String ctx.IgnoreVariableCase, false)
    | .time _ => .ok (resolveStructField current sv.String ctx.IgnoreVariableCase, false)
    | .map entries =>
      if sv.IsNil then .ok (.invalid, true)
      else if assignableToKey sv.val entries then
        if sv.val.kind == .str then
          .ok (resolveMapStringKey entries (reflectString sv.val) ctx.IgnoreVariableCase, false)
        else .ok (mapIndexR entries sv.val, false)
      else .ok (.invalid, true)
    | _ => .error (.cantAccessIndex (kindName current.kind) vrStr)

/-- resolvePartByType from variable.go (the default arm is a Go panic). -/
def resolvePartByType (ctx : ExecutionContext) (vrStr : String) (current : RVal)
    (part : VariablePart) : Except GoErr (RVal × Bool) :=
  match part.typ with
  | .int => resolveIntIndex vrStr current part
  | .ident => resolveIdentifier vrStr current part ctx.IgnoreVariableCase
  | .subscript => resolveSubscript ctx vrStr current part
  | _ => .error .panicUnimplemented

/-- resolveNextPart from variable.go: method lookup first for ident parts,
then one pointer dereference (nil pointer terminates with isNil), then the
part-type dispatch. A *pongo2.Value never reaches this point (the loop
unpacks it first); for totality it dereferences to the bare Value struct. -/
def resolveNextPart (ctx : ExecutionContext) (vrStr : String) (current : RVal)
    (part : VariablePart) : Except GoErr (RVal × Bool) :=
  match (if part.typ = .ident then methodByName current part.s else none) with
  | some f => .ok (f, false)
  | none =>
    match current with
    | .ptr t => resolvePartByType ctx vrStr t part
    | .nilptr => .ok (.invalid, true)
    | .pvalue _ _ => resolvePartByType ctx vrStr (.strct [] []) part
    | _ => resolvePartByType ctx vrStr current part

def evalCallArgs : List (Except GoErr Value) → Except GoErr (List Value)
  | [] => .ok []
  | a :: rest =>
    match a with
    | .error e => .error e
    | .ok v =>
      match evalCallArgs rest with
      | .error e => .error e
      | .ok vs => .ok (v :: vs)

/-- handleFunctionCall + prepareCallParameters + executeCall from
variable.go. `part.i = 1` is the callable-test marker requesting the
function value itself. Argument-count validation, the implicit
execution-context first parameter, output-count validation, left-to-right
argument evaluation and the error second return value are modelled in
full; per-argument type conversion is modelled for callables declaring
*pongo2.Value parameters (convertArgToParam then always succeeds), and the
callable's results are argument-independent (the ret/retErr fields of the
func value). -/
def handleFunctionCall (vrStr : String) (current : RVal) (part : VariablePart) :
    Except GoErr (RVal × Bool) :=
  if part.i = 1 then .ok (current, true)
  else
    match current with
    | .func wantsCtx variadic numIn numOut retIsValuePtr ret retSafe retErr =>
      let numCurrArgs := part.callingArgs.length + (if numIn > 0 ∧ wantsCtx then 1 else 0)
      if numCurrArgs ≠ numIn ∧ ((numCurrArgs : Int) < (numIn : Int) - 1 ∨ ¬ variadic) then
        .error (.argCountMismatch numIn vrStr numCurrArgs)
      else if numOut ≠ 1 ∧ numOut ≠ 2 then .error (.badOutputCount vrStr)
      else
        match evalCallArgs part.callingArgs with
        | .error e => .error e
        | .ok _ =>
          if numOut = 2 then
            match retErr with
            | some msg => .error (.hostError msg)
            | none => .ok (if retIsValuePtr then (ret, retSafe) else (ret, false))
          else .ok (if retIsValuePtr then (ret, retSafe) else (ret, false))
    | _ => .error (.notAFunction vrStr (kindName current.kind))

/-- resolveDeep from deep.go. Every theorem below evaluates with
ctx.DeepResolve = false; the branch is embedded for completeness with the
behaviour resolveInterface has on template-free host data (rebuild the
containers unchanged and report modified = false). -/
def resolveDeep (_ctx : ExecutionContext) (current : RVal) : Except GoErr (RVal × Bool) :=
  .ok (current, false)

/-- The part loop of variableResolver.resolve from variable.go: index 0
looks the first part up in the scopes, later parts descend via
resolveNextPart; a nil or invalid intermediate value terminates with the
nil Value; function calls are sandbox-checked and dispatched. (The
interface-unwrapping line is a no-op in the model, whose values are
concrete.) -/
def resolveSteps (ctx : ExecutionContext) (vrStr : String) :
    List VariablePart → Nat → RVal → Bool → Except GoErr Value
  | [], _, current, isSafe => .ok ⟨current, isSafe⟩
  | part :: rest, idx, prev, isSafe =>
    match (if idx = 0 then .ok (lookupInitialValue ctx part.s, false)
           else resolveNextPart ctx vrStr prev part : Except GoErr (RVal × Bool)) with
    | .error e => .error e
    | .ok (current0, isNil) =>
      if isNil then .ok nilValue
      else if ¬ current0.isValid then .ok nilValue
      else
        let up := unpackValue current0 isSafe
        match (if part.isFunctionCall || up.1.kind == .func then
                 if !(if idx > 0 then !ctx.DisableNestedFunctions
                      else !ctx.DisableContextFunctions) then
                   .error .disabledFunction
                 else handleFunctionCall vrStr up.1 part
               else .ok up : Except GoErr (RVal × Bool)) with
        | .error e => .error e
        | .ok (current2, isSafe2) =>
          if ¬ current2.isValid then .ok nilValue
          else if ctx.DeepResolve then
            match resolveDeep ctx current2 with
            | .error e => .error e
            | .ok (updated, modified) =>
              resolveSteps ctx vrStr rest (idx + 1) (if modified then updated else current2)
                isSafe2
          else resolveSteps ctx vrStr rest (idx + 1) current2 isSafe2

/-- Element evaluation shared by resolveArrayDefinition and
resolveDictDefinition: each part's subscript must be a
*nodeFilteredVariable, and its evaluation errors propagate. -/
def evalLitPart (p : VariablePart) : Except GoErr Value :=
  match p.subscript with
  | some se => if se.isNFV then se.res else .error .unknownVariableType
  | none => .error .unknownVariableType

def evalLitParts : List VariablePart → Except GoErr (List Value)
  | [] => .ok []
  | p :: rest =>
    match evalLitPart p with
    | .error e => .error e
    | .ok v =>
      match evalLitParts rest with
      | .error e => .error e
      | .ok vs => .ok (v :: vs)

/-- resolveArrayDefinition from variable.go: a []*Value wrapped as a safe
Value. -/
def resolveArrayDefinition (vr : VariableResolver) : Except GoErr Value :=
  match evalLitParts vr.parts with
  | .error e => .error e
  | .ok items => .ok ⟨.slice (items.map (fun it => .pvalue it.val it.safe)), true⟩

def insertMapEntry (entries : List (RVal × RVal)) (k v : RVal) : List (RVal × RVal) :=
  if entries.any (fun e => goKeyEq e.1 k) then
    entries.map (fun e => if goKeyEq e.1 k then (e.1, v) else e)
  else entries ++ [(k, v)]

def dictAccum : List VariablePart → List (RVal × RVal) → Except GoErr (List (RVal × RVal))
  | [], acc => .ok acc
  | p :: rest, acc =>
    match evalLitPart p with
    | .error e => .error e
    | .ok v => dictAccum rest (insertMapEntry acc (.str p.s) (.pvalue v.val v.safe))

/-- resolveDictDefinition from variable.go: a map[string]*Value wrapped as
a safe Value. -/
def resolveDictDefinition (vr : VariableResolver) : Except GoErr Value :=
  match dictAccum vr.parts [] with
  | .error e => .error e
  | .ok es => .ok ⟨.map es, true⟩

/-- variableResolver.resolve from variable.go. -/
def resolve (ctx : ExecutionContext) (vr : VariableResolver) : Except GoErr Value :=
  match vr.parts.head? with
  | some p =>
    if p.typ = .array then resolveArrayDefinition vr
    else if p.typ = .dict then resolveDictDefinition vr
    else resolveSteps ctx (vrString vr) vr.parts 0 .invalid false
  | none => .ok ⟨.invalid, false⟩

/-- variableResolver.Evaluate from variable.go: resolve, with errors
re-anchored at the variable's token by ctx.Error — position data is
outside the model, so errors pass through unchanged. -/
def VariableResolver.Evaluate (vr : VariableResolver) (ctx : ExecutionContext) :
    Except GoErr Value :=
  resolve ctx vr

/-- A parse-time-bound filter in a chain, modelled by its name and its
action on the input value (the filter's own parameter expressions are
absorbed into `fn`, which models filterCall.Execute for this call). -/
structure FilterCallM where
  name : String
  fn : Value → Except GoErr Value

/-- The resolver slot of a nodeFilteredVariable: a variable path, or one
of the literal resolvers (string/int/float/bool), which evaluate to their
constant. -/
inductive Resolver where
  | varRes (vr : VariableResolver)
  | litRes (v : Value)

def Resolver.Evaluate (r : Resolver) (ctx : ExecutionContext) : Except GoErr Value :=
  match r with
  | .varRes vr => vr.Evaluate ctx
  | .litRes v => .ok v

/-- nodeFilteredVariable from variable.go. -/
structure NodeFilteredVariable where
  resolver : Resolver
  filterChain : List FilterCallM

/-- nodeFilteredVariable.FilterApplied from variable.go. -/
def NodeFilteredVariable.FilterApplied (v : NodeFilteredVariable) (name : String) : Bool :=
  v.filterChain.any (fun f => f.name == name)

/-- The filter loop of nodeFilteredVariable.Evaluate. -/
def applyFilters : List FilterCallM → Value → Except GoErr Value
  | [], v => .ok v
  | f :: rest, v =>
    match f.fn v with
    | .error e => .error e
    | .ok v2 => applyFilters rest v2

/-- nodeFilteredVariable.Evaluate from variable.go. -/
def NodeFilteredVariable.Evaluate (v : NodeFilteredVariable) (ctx : ExecutionContext) :
    Except GoErr Value :=
  match v.resolver.Evaluate ctx with
  | .error e => .error e
  | .ok value => applyFilters v.filterChain value

/-- nodeVariable from variable.go: a `{{ expr }}` element. -/
structure NodeVariable where
  expr : NodeFilteredVariable

/-- nodeVariable.Evaluate from variable.go: the autoescape wrapper.
`escapeFn` is the set's filter registered under Options.AutoescapeFilter
(none when that filter is unregistered, in which case the Go code skips
the call). -/
def NodeVariable.Evaluate (nv : NodeVariable) (ctx : ExecutionContext)
    (escapeFn : Option (Value → Except GoErr Value)) : Except GoErr Value :=
  match nv.expr.Evaluate ctx with
  | .error e => .error e
  | .ok value =>
    if !(nv.expr.FilterApplied "safe") && !value.safe && value.IsString && ctx.Autoescape then
      match escapeFn with
      | some f => f value
      | none => .ok value
    else .ok value

/-- TestFunction from tests.go. -/
abbrev TestFunction := Value → Args → Except GoErr Bool

/-- The process-wide tests registry from tests.go, as a lookup. -/
abbrev TestsReg := String → Option TestFunction

/-- PerformTest from tests.go. -/
def PerformTest (reg : TestsReg) (name : String) (value : Value) (args : Args) :
    Except GoErr Bool :=
  match reg name with
  | none => .error (.testNotFound name)
  | some fn => fn value args

def evalNamedArgs : List (String × Except GoErr Value) → Except GoErr (List (String × Value))
  | [] => .ok []
  | (k, a) :: rest =>
    match a with
    | .error e => .error e
    | .ok v =>
      match evalNamedArgs rest with
      | .error e => .error e
      | .ok vs => .ok ((k, v) :: vs)

/-- evaluateArgs from args.go: positional then named parameters, each
evaluator modelled by its result. -/
def evaluateArgsM (parameters : List (Except GoErr Value))
    (named : List (String × Except GoErr Value)) : Except GoErr Args :=
  match evalCallArgs parameters with
  | .error e => .error e
  | .ok ps =>
    match evalNamedArgs named with
    | .error e => .error e
    | .ok ns => .ok ⟨ps, ns⟩

/-- testCall from tests.go (the parse-time-bound testFunc is re-looked-up
by name in Evaluate, exactly as the source's PerformTest call does). -/
structure TestCall where
  name : String
  parameters : List (Except GoErr Value) := []
  namedParameters : List (String × Except GoErr Value) := []
  term : NodeFilteredVariable
  negate : Bool := false

/-- The i := 1 marking of the last part in the callable branch of
testCall.Evaluate. The source sets it through a copy of the parts slice,
but the copy shares the part pointers, so the original resolver is
evaluated with the marker set — the model evaluates the marked parts. -/
def setLastI1 : List VariablePart → List VariablePart
  | [] => []
  | [p] => [{ p with i := 1 }]
  | p :: rest => p :: setLastI1 rest

/-- testCall.Evaluate from tests.go: `defined`/`undefined` test the term's
resolution, `escaped` the filter chain and then the safe flag, `callable`
re-resolves the term with the part.i = 1 marker and returns without the
negation step, and every other name evaluates term and arguments and
dispatches through the registry, negating when `not` was parsed. -/
def TestCall.Evaluate (reg : TestsReg) (tc : TestCall) (ctx : ExecutionContext) :
    Except GoErr Value :=
  if tc.name == "undefined" ∨ tc.name == "defined" then
    let passedBase :=
      match tc.term.Evaluate ctx with
      | .ok resolved => (resolvedValue resolved.val).isValid
      | .error _ => false
    let passed := if tc.name == "undefined" then !passedBase else passedBase
    .ok (AsValue (.bool (if tc.negate then !passed else passed)))
  else if tc.name == "escaped" then
    let p0 := tc.term.FilterApplied "safe" || tc.term.FilterApplied "escape"
    let passed :=
      if p0 then true
      else
        match tc.term.Evaluate ctx with
        | .ok vv => vv.safe
        | .error _ => false
    .ok (AsValue (.bool (if tc.negate then !passed else passed)))
  else if tc.name == "callable" then
    match tc.term.resolver with
    | .varRes vr =>
      match VariableResolver.Evaluate ⟨setLastI1 vr.parts⟩ ctx with
      | .error _ => .ok (AsValue (.bool false))
      | .ok f => .ok (AsValue (.bool ((resolvedValue f.val).kind == .func)))
    | .litRes _ => .ok (AsValue (.bool false))
  else
    match tc.term.Evaluate ctx with
    | .error e => .error e
    | .ok t =>
      match evaluateArgsM tc.parameters tc.namedParameters with
      | .error e => .error e
      | .ok args =>
        match PerformTest reg tc.name t args with
        | .error e => .error e
        | .ok passed => .ok (AsValue (.bool (if tc.negate then !passed else passed)))

/-! Verification-side instruments (not part of the embedded sources):
an iteration callback that records the visited entries, and hygiene
predicates describing host data without callables. -/

/-- An IterateOrder callback that appends each visited (key, value) pair
to its state and always continues; the Bool component records whether the
empty callback ran. -/
def collectFn (s : List (RVal × RVal) × Bool) (_idx _count : Nat) (k : Value)
    (v : Option Value) : (List (RVal × RVal) × Bool) × Bool :=
  ((s.1 ++ [(k.val, ((v.getD nilValue).val))], s.2), true)

def emptyMark (s : List (RVal × RVal) × Bool) : List (RVal × RVal) × Bool :=
  (s.1, true)

mutual
/-- Host data containing no callables anywhere (no func values, empty
method sets): on such data the resolver never takes the function-call
branch. -/
def funcFree : RVal → Bool
  | .func .. => false
  | .slice xs => funcFreeList xs
  | .array xs => funcFreeList xs
  | .map es => funcFreePairs es
  | .strct fs ms => ms.isEmpty && funcFreeFields fs
  | .ptr t => funcFree t
  | .pvalue inner _ => funcFree inner
  | _ => true
def funcFreeList : List RVal → Bool
  | [] => true
  | x :: rest => funcFree x && funcFreeList rest
def funcFreePairs : List (RVal × RVal) → Bool
  | [] => true
  | (k, v) :: rest => funcFree k && funcFree v && funcFreePairs rest
def funcFreeFields : List (String × Bool × RVal) → Bool
  | [] => true
  | (_, _, v) :: rest => funcFree v && funcFreeFields rest
end

/-- Both scopes of the context hold only func-free data. -/
def CtxFuncFree (ctx : ExecutionContext) : Prop :=
  (∀ kv ∈ ctx.Public, funcFree kv.2 = true) ∧ (∀ kv ∈ ctx.Private, funcFree kv.2 = true)

/-- A tail part that is a plain field/key/index access: one of the three
descending part types, not marked as a function call, with an evaluated
(non-erroring) subscript. -/
def PlainPart (p : VariablePart) : Prop :=
  (p.typ = .int ∨ p.typ = .ident ∨ p.typ = .subscript) ∧
  p.isFunctionCall = false ∧
  (∀ se, p.subscript = some se → ∃ v, se.res = .ok v)

/-- No evaluator constant among the parts' subscripts or calling arguments
is itself a sandbox error (in the source these nested evaluators run under
the same disabled-flags-off context, so they cannot produce one). -/
def NoSandboxErr (parts : List VariablePart) : Prop :=
  ∀ part ∈ parts,
    (∀ se, part.subscript = some se → se.res ≠ .error .disabledFunction) ∧
    (∀ a ∈ part.callingArgs, a ≠ .error .disabledFunction)

/-- Three-way case-sensitive Go string comparison, as the default branch
of Value.compare performs it. -/
def strCmp3 (a b : String) : Int :=
  if a < b then -1 else if b < a then 1 else 0

/-- A type-incompatibility error: one of the two error messages of
resolveIntIndex / resolveSubscript / resolveIdentifier ("can't access an
index on type …" / "can't access a field by name on type …"). -/
def TypeIncompatErr (e : GoErr) : Prop :=
  (∃ k s, e = .cantAccessIndex k s) ∨ (∃ k s, e = .cantAccessField k s)



/-! Helper lemmas for the claim theorems below. -/

set_option linter.unnecessarySimpa false
set_option linter.unnecessarySeqFocus false
set_option linter.unreachableTactic false
set_option linter.unusedTactic false

theorem findInvalidName_none_iff (required optional : List String) (kws : List (String × Value)) :
    findInvalidName required optional kws = none ↔
      ∀ kv ∈ kws, kv.1 ∈ required ∨ kv.1 ∈ optional := by
  induction kws with
  | nil => simp [findInvalidName]
  | cons kv rest ih =>
    obtain ⟨k, v⟩ := kv
    by_cases hk : (required.contains k || optional.contains k) = true
    · simp only [findInvalidName, hk, if_pos]
      rw [ih]
      simp only [Bool.or_eq_true, List.elem_iff] at hk
      simp [hk]
    · simp only [findInvalidName, hk, if_neg]
      simp only [Bool.or_eq_true, List.elem_iff] at hk
      push_neg at hk
      simp [hk]

theorem namedArgsInvalid_false_iff (required optional : List String) (args : Args) :
    namedArgsInvalid required optional args = false ↔
      (args.Len ≤ required.length + optional.length ∧
       ∀ n ∈ required.drop args.Len, args.HasNamed n = true) := by
  unfold namedArgsInvalid
  by_cases h1 : args.Len = required.length
  · have hdrop : required.drop args.Len = [] := by rw [h1]; exact List.drop_length required
    simp [h1, hdrop]
  · by_cases h2 : args.Len > required.length + optional.length
    · simp [h1, h2]
    · by_cases h3 : args.Len < required.length
      · simp only [h1, if_false, h2, h3, if_true, if_neg, if_pos, List.any_eq_false]
        constructor
        · intro ha
          refine ⟨by omega, ?_⟩
          intro n hn
          have := ha n hn
          simpa using this
        · rintro ⟨-, hb⟩
          intro n hn
          simp [hb n hn]
      · have hdrop : required.drop args.Len = [] := List.drop_eq_nil_of_le (by omega)
        simp [h1, h2, h3, hdrop]
        omega

theorem runIter_collect (count : Nat) (pairs : List (Value × Option Value)) (idx : Nat)
    (acc : List (RVal × RVal)) (flag : Bool) :
    runIter collectFn count idx pairs (acc, flag) =
      (acc ++ pairs.map (fun kv => (kv.1.val, ((kv.2.getD nilValue).val))), flag) := by
  induction pairs generalizing idx acc with
  | nil => simp [runIter]
  | cons kv rest ih =>
    simp [runIter, collectFn, ih]

theorem length_insertBy (less : α → α → Bool) (x : α) (l : List α) :
    (insertBy less x l).length = l.length + 1 := by
  induction l with
  | nil => rfl
  | cons y rest ih => by_cases h : less y x <;> simp [insertBy, h, ih]

theorem length_sortBy (less : α → α → Bool) (l : List α) :
    (sortBy less l).length = l.length := by
  induction l with
  | nil => rfl
  | cons x rest ih => simp [sortBy, length_insertBy, ih]

theorem kind_eq_invalid_iff (r : RVal) : r.kind = RKind.invalid ↔ r = RVal.invalid := by
  cases r <;> simp [RVal.kind]

theorem isValid_of_kind (r : RVal) (k : RKind) (h : r.kind = k) (hk : k ≠ RKind.invalid) :
    r.isValid = true := by
  cases r <;> simp_all [RVal.kind, RVal.isValid]

theorem IsTime_false_of_kind (x : Value) (hk : (resolvedValue x.val).kind ≠ RKind.struct) :
    x.IsTime = false := by
  unfold Value.IsTime
  cases h : x.val <;> try rfl
  case time t =>
    rw [h] at hk
    exact absurd rfl hk

theorem IsNil_false_of_kind (x : Value) (k : RKind) (h : (resolvedValue x.val).kind = k)
    (hk : k ≠ RKind.invalid) : x.IsNil = false := by
  unfold Value.IsNil
  rw [isValid_of_kind _ _ h hk]
  rfl

theorem evalCallArgs_mem_of_error (l : List (Except GoErr Value)) (e : GoErr) :
    evalCallArgs l = .error e → (Except.error e) ∈ l := by
  induction l with
  | nil => intro h; cases h
  | cons a rest ih =>
    intro h
    cases a with
    | error e2 =>
      simp [evalCallArgs] at h
      simp [h]
    | ok v =>
      simp only [evalCallArgs] at h
      cases hr : evalCallArgs rest with
      | error e2 =>
        rw [hr] at h
        simp at h
        subst h
        exact List.mem_cons_of_mem _ (ih hr)
      | ok vs => rw [hr] at h; cases h

theorem resolveSubscript_no_sandbox (ctx : ExecutionContext) (vrStr : String) (current : RVal)
    (part : VariablePart)
    (hsub : ∀ se, part.subscript = some se → se.res ≠ .error .disabledFunction) :
    resolveSubscript ctx vrStr current part ≠ .error .disabledFunction := by
  unfold resolveSubscript
  cases hs : part.subscript with
  | none => cases current <;> dsimp only <;> (repeat' split) <;> simp
  | some se =>
    cases hr : se.res with
    | error e =>
      have hne : e ≠ .disabledFunction := by
        intro h; subst h; exact hsub se hs (by rw [hr])
      simp only [hr]
      simp [hne]
    | ok sv =>
      simp only [hr]
      cases current <;> dsimp only <;> (repeat' split) <;> simp

theorem resolvePartByType_no_sandbox (ctx : ExecutionContext) (vrStr : String) (current : RVal)
    (part : VariablePart)
    (hsub : ∀ se, part.subscript = some se → se.res ≠ .error .disabledFunction) :
    resolvePartByType ctx vrStr current part ≠ .error .disabledFunction := by
  unfold resolvePartByType
  cases part.typ <;> dsimp only
  · unfold resolveIntIndex
    cases current <;> dsimp only <;> (repeat' split) <;> simp
  · unfold resolveIdentifier
    cases current.kind <;> simp
  · exact resolveSubscript_no_sandbox ctx vrStr current part hsub
  · simp
  · simp
  · simp

theorem resolveNextPart_no_sandbox (ctx : ExecutionContext) (vrStr : String) (current : RVal)
    (part : VariablePart)
    (hsub : ∀ se, part.subscript = some se → se.res ≠ .error .disabledFunction) :
    resolveNextPart ctx vrStr current part ≠ .error .disabledFunction := by
  unfold resolveNextPart
  cases hm : (if part.typ = PartTyp.ident then methodByName current part.s else none) with
  | some f => simp
  | none =>
    cases current <;> dsimp only <;>
      first
        | exact resolvePartByType_no_sandbox ctx vrStr _ part hsub
        | simp

theorem handleFunctionCall_no_sandbox (vrStr : String) (current : RVal) (part : VariablePart)
    (hargs : ∀ a ∈ part.callingArgs, a ≠ .error .disabledFunction) :
    handleFunctionCall vrStr current part ≠ .error .disabledFunction := by
  unfold handleFunctionCall
  split
  · simp
  · cases current
    case func wantsCtx variadic numIn numOut rvp ret retSafe retErr =>
      dsimp only
      cases hargs2 : evalCallArgs part.callingArgs with
      | error e =>
        have hne : e ≠ .disabledFunction := by
          intro h; subst h
          exact hargs _ (evalCallArgs_mem_of_error _ _ hargs2) rfl
        simp only [hargs2]
        (repeat' split) <;> simp [hne]
      | ok vs =>
        simp only [hargs2]
        (repeat' split) <;> simp
    all_goals simp

theorem resolveSteps_no_sandbox (ctx : ExecutionContext)
    (hc : ctx.DisableContextFunctions = false) (hn : ctx.DisableNestedFunctions = false)
    (vrStr : String) :
    ∀ (parts : List VariablePart) (idx : Nat) (current : RVal) (isSafe : Bool),
    NoSandboxErr parts →
    resolveSteps ctx vrStr parts idx current isSafe ≠ .error .disabledFunction := by
  intro parts
  induction parts with
  | nil => intro idx current isSafe hns h; cases h
  | cons part rest ih =>
    intro idx current isSafe hns h
    have hpart := hns part (List.mem_cons_self part rest)
    have hrest : NoSandboxErr rest := fun p hp => hns p (List.mem_cons_of_mem _ hp)
    rw [resolveSteps] at h
    rcases hstep : (if idx = 0 then (.ok (lookupInitialValue ctx part.s, false) : Except GoErr (RVal × Bool))
        else resolveNextPart ctx vrStr current part) with e | p2
    · rw [hstep] at h
      dsimp only at h
      have he : e = GoErr.disabledFunction := by
        exact (Except.error.injEq _ _).mp h
      subst he
      by_cases hidx : idx = 0
      · rw [if_pos hidx] at hstep
        cases hstep
      · rw [if_neg hidx] at hstep
        exact resolveNextPart_no_sandbox ctx vrStr current part hpart.1 hstep
    · rw [hstep] at h
      dsimp only at h
      obtain ⟨current0, isNil⟩ := p2
      by_cases hnil : isNil = true
      · rw [if_pos hnil] at h
        cases h
      · rw [if_neg hnil] at h
        by_cases hval : (¬ current0.isValid = true)
        · rw [if_pos hval] at h
          cases h
        · rw [if_neg hval] at h
          simp only [hc, hn, Bool.not_false, ite_self, Bool.not_true, Bool.false_eq_true,
            if_false] at h
          rcases hcall : (if (part.isFunctionCall || (unpackValue current0 isSafe).1.kind == RKind.func) = true then
              handleFunctionCall vrStr (unpackValue current0 isSafe).1 part
              else .ok (unpackValue current0 isSafe)) with e2 | p3
          · rw [hcall] at h
            dsimp only at h
            have he2 : e2 = GoErr.disabledFunction := (Except.error.injEq _ _).mp h
            subst he2
            by_cases hfn : (part.isFunctionCall || (unpackValue current0 isSafe).1.kind == RKind.func) = true
            · rw [if_pos hfn] at hcall
              exact handleFunctionCall_no_sandbox vrStr _ part hpart.2 hcall
            · rw [if_neg hfn] at hcall
              cases hcall
          · rw [hcall] at h
            dsimp only at h
            obtain ⟨current2, isSafe2⟩ := p3
            by_cases hval2 : (¬ current2.isValid = true)
            · rw [if_pos hval2] at h
              cases h
            · rw [if_neg hval2] at h
              by_cases hdeep : ctx.DeepResolve = true
              · rw [if_pos hdeep] at h
                simp only [resolveDeep] at h
                exact ih _ _ _ hrest h
              · rw [if_neg hdeep] at h
                exact ih _ _ _ hrest h

theorem evalLitParts_no_sandbox (parts : List VariablePart) (h : NoSandboxErr parts) :
    evalLitParts parts ≠ .error .disabledFunction := by
  induction parts with
  | nil => intro hcon; cases hcon
  | cons p rest ih =>
    intro hcon
    have hp := (h p (List.mem_cons_self p rest)).1
    have hrest : NoSandboxErr rest := fun q hq => h q (List.mem_cons_of_mem _ hq)
    rw [evalLitParts] at hcon
    rcases hlit : evalLitPart p with e | v
    · rw [hlit] at hcon
      dsimp only at hcon
      have he : e = GoErr.disabledFunction := (Except.error.injEq _ _).mp hcon
      subst he
      unfold evalLitPart at hlit
      rcases hs : p.subscript with _ | se
      · rw [hs] at hlit; cases hlit
      · rw [hs] at hlit
        dsimp only at hlit
        by_cases hnfv : se.isNFV = true
        · rw [if_pos hnfv] at hlit
          exact hp se hs hlit
        · rw [if_neg hnfv] at hlit
          cases hlit
    · rw [hlit] at hcon
      dsimp only at hcon
      rcases hrec : evalLitParts rest with e2 | vs
      · rw [hrec] at hcon
        dsimp only at hcon
        have : e2 = GoErr.disabledFunction := (Except.error.injEq _ _).mp hcon
        subst this
        exact ih hrest hrec
      · rw [hrec] at hcon; cases hcon

theorem dictAccum_no_sandbox (parts : List VariablePart) (h : NoSandboxErr parts) :
    ∀ acc, dictAccum parts acc ≠ .error .disabledFunction := by
  induction parts with
  | nil => intro acc hcon; cases hcon
  | cons p rest ih =>
    intro acc hcon
    have hp := (h p (List.mem_cons_self p rest)).1
    have hrest : NoSandboxErr rest := fun q hq => h q (List.mem_cons_of_mem _ hq)
    rw [dictAccum] at hcon
    rcases hlit : evalLitPart p with e | v
    · rw [hlit] at hcon
      dsimp only at hcon
      have he : e = GoErr.disabledFunction := (Except.error.injEq _ _).mp hcon
      subst he
      unfold evalLitPart at hlit
      rcases hs : p.subscript with _ | se
      · rw [hs] at hlit; cases hlit
      · rw [hs] at hlit
        dsimp only at hlit
        by_cases hnfv : se.isNFV = true
        · rw [if_pos hnfv] at hlit
          exact hp se hs hlit
        · rw [if_neg hnfv] at hlit
          cases hlit
    · rw [hlit] at hcon
      dsimp only at hcon
      exact ih hrest _ hcon

theorem funcFree_findFieldDirect (fields : List (String × Bool × RVal)) (n : String)
    (h : funcFreeFields fields = true) :
    ∀ v, findFieldDirect fields n = some v → funcFree v = true := by
  induction fields with
  | nil => intro v hv; cases hv
  | cons f rest ih =>
    intro v hv
    obtain ⟨nm, anon, fv⟩ := f
    rw [funcFreeFields, Bool.and_eq_true] at h
    unfold findFieldDirect at hv
    by_cases hn : (nm == n) = true
    · simp [List.find?, hn] at hv
      rw [← hv]
      exact h.1
    · simp only [List.find?, hn] at hv
      exact ih h.2 v hv

theorem funcFree_findFieldFold (fields : List (String × Bool × RVal)) (n : String)
    (h : funcFreeFields fields = true) :
    ∀ v, findFieldFold fields n = some v → funcFree v = true := by
  induction fields with
  | nil => intro v hv; cases hv
  | cons f rest ih =>
    intro v hv
    obtain ⟨nm, anon, fv⟩ := f
    rw [funcFreeFields, Bool.and_eq_true] at h
    unfold findFieldFold at hv
    by_cases hn : (nm.toLower == n.toLower) = true
    · simp [List.find?, hn] at hv
      rw [← hv]
      exact h.1
    · simp only [List.find?, hn] at hv
      exact ih h.2 v hv

theorem funcFree_derefPtrs (v : RVal) (h : funcFree v = true) : funcFree (derefPtrs v) = true := by
  induction v using derefPtrs.induct with
  | case1 t ih => rw [derefPtrs]; rw [funcFree] at h; exact ih h
  | case2 v hne => rw [derefPtrs]; exact h; exact hne

mutual
theorem funcFree_resolveStructField : ∀ (c : RVal) (n : String) (ic : Bool),
    funcFree c = true → funcFree (resolveStructField c n ic) = true
  | .strct fields ms, n, ic, h => by
    have hff : funcFreeFields fields = true := by
      rw [funcFree, Bool.and_eq_true] at h
      exact h.2
    rw [resolveStructField]
    rcases hd : findFieldDirect fields n with _ | v
    · rcases hf : (if ic then findFieldFold fields n else none) with _ | v2
      · simp only [hd, hf]
        exact funcFree_scanAnon fields n ic hff
      · simp only [hd, hf]
        by_cases hic : ic = true
        · rw [hic, if_pos rfl] at hf
          exact funcFree_findFieldFold fields n hff v2 hf
        · rw [if_neg hic] at hf
          cases hf
    · simp only [hd]
      exact funcFree_findFieldDirect fields n hff v hd
  | .invalid, _, _, _ => by simp [resolveStructField, funcFree]
  | .int _, _, _, _ => by simp [resolveStructField, funcFree]
  | .uint _, _, _, _ => by simp [resolveStructField, funcFree]
  | .float _, _, _, _ => by simp [resolveStructField, funcFree]
  | .bool _, _, _, _ => by simp [resolveStructField, funcFree]
  | .str _, _, _, _ => by simp [resolveStructField, funcFree]
  | .slice _, _, _, _ => by simp [resolveStructField, funcFree]
  | .array _, _, _, _ => by simp [resolveStructField, funcFree]
  | .map _, _, _, _ => by simp [resolveStructField, funcFree]
  | .time _, _, _, _ => by simp [resolveStructField, funcFree]
  | .chan _, _, _, _ => by simp [resolveStructField, funcFree]
  | .func _ _ _ _ _ _ _ _, _, _, _ => by simp [resolveStructField, funcFree]
  | .ptr _, _, _, _ => by simp [resolveStructField, funcFree]
  | .nilptr, _, _, _ => by simp [resolveStructField, funcFree]
  | .pvalue _ _, _, _, _ => by simp [resolveStructField, funcFree]

theorem funcFree_scanAnon : ∀ (fs : List (String × Bool × RVal)) (n : String) (ic : Bool),
    funcFreeFields fs = true → funcFree (scanAnon fs n ic) = true
  | [], _, _, _ => by simp [scanAnon, funcFree]
  | (nm, anon, fv) :: rest, n, ic, h => by
    have hsplit : funcFree fv = true ∧ funcFreeFields rest = true := by
      rw [funcFreeFields, Bool.and_eq_true] at h
      exact h
    rw [scanAnon]
    by_cases ha : anon = true
    · rw [if_pos ha]
      rcases haf : anonField fv n ic with _ | r
      · simp only [haf]
        exact funcFree_scanAnon rest n ic hsplit.2
      · simp only [haf]
        exact funcFree_anonField fv n ic r hsplit.1 haf
    · rw [if_neg ha]
      exact funcFree_scanAnon rest n ic hsplit.2

theorem funcFree_anonField : ∀ (v : RVal) (n : String) (ic : Bool) (r : RVal),
    funcFree v = true → anonField v n ic = some r → funcFree r = true
  | .ptr t, n, ic, r, h, he => by
    rw [anonField] at he
    rw [funcFree] at h
    exact funcFree_anonField t n ic r h he
  | .strct fs ms, n, ic, r, h, he => by
    rw [anonField] at he
    by_cases hv : (resolveStructField (.strct fs ms) n ic).isValid = true
    · rw [if_pos hv] at he
      simp only [Option.some.injEq] at he
      rw [← he]
      exact funcFree_resolveStructField (.strct fs ms) n ic h
    · rw [if_neg hv] at he
      cases he
  | .invalid, _, _, _, _, he => by simp [anonField] at he
  | .int _, _, _, _, _, he => by simp [anonField] at he
  | .uint _, _, _, _, _, he => by simp [anonField] at he
  | .float _, _, _, _, _, he => by simp [anonField] at he
  | .bool _, _, _, _, _, he => by simp [anonField] at he
  | .str _, _, _, _, _, he => by simp [anonField] at he
  | .slice _, _, _, _, _, he => by simp [anonField] at he
  | .array _, _, _, _, _, he => by simp [anonField] at he
  | .map _, _, _, _, _, he => by simp [anonField] at he
  | .time _, _, _, _, _, he => by simp [anonField] at he
  | .chan _, _, _, _, _, he => by simp [anonField] at he
  | .func _ _ _ _ _ _ _ _, _, _, _, _, he => by simp [anonField] at he
  | .nilptr, _, _, _, _, he => by simp [anonField] at he
  | .pvalue _ _, _, _, _, _, he => by simp [anonField] at he
end

theorem funcFree_invalid : funcFree .invalid = true := by simp [funcFree]

theorem funcFreeList_getD (xs : List RVal) (h : funcFreeList xs = true) (i : Nat) :
    funcFree (xs.getD i .invalid) = true := by
  induction xs generalizing i with
  | nil => simpa [funcFree] using funcFree_invalid
  | cons x rest ih =>
    rw [funcFreeList, Bool.and_eq_true] at h
    cases i with
    | zero => simpa using h.1
    | succ j => simpa using ih h.2 j

theorem funcFreePairs_val (entries : List (RVal × RVal)) (h : funcFreePairs entries = true) :
    ∀ kv ∈ entries, funcFree kv.1 = true ∧ funcFree kv.2 = true := by
  induction entries with
  | nil => intro kv hkv; cases hkv
  | cons e rest ih =>
    intro kv hkv
    obtain ⟨k, v⟩ := e
    rw [funcFreePairs, Bool.and_eq_true, Bool.and_eq_true] at h
    rw [List.mem_cons] at hkv
    rcases hkv with hkv | hkv
    · subst hkv; exact ⟨h.1.1, h.1.2⟩
    · exact ih h.2 kv hkv

theorem funcFree_find_pair (entries : List (RVal × RVal)) (p : RVal × RVal → Bool)
    (h : funcFreePairs entries = true) :
    ∀ e, entries.find? p = some e → funcFree e.2 = true := by
  intro e he
  exact (funcFreePairs_val entries h e (List.mem_of_find?_eq_some he)).2

theorem funcFree_resolveMapStringKey (entries : List (RVal × RVal)) (key : String) (ic : Bool)
    (h : funcFreePairs entries = true) :
    funcFree (resolveMapStringKey entries key ic) = true := by
  unfold resolveMapStringKey
  rcases h1 : entries.find? (fun e => goKeyEq e.1 (.str key)) with _ | e
  · simp only [h1]
    by_cases hic : ic = true
    · rw [if_pos hic]
      rcases h2 : entries.find? (fun e => (reflectString e.1).toLower == key.toLower) with _ | e2
      · simp only [h2]
        exact funcFree_invalid
      · simp only [h2]
        exact funcFree_find_pair entries _ h e2 h2
    · rw [if_neg hic]
      exact funcFree_invalid
  · simp only [h1]
    exact funcFree_find_pair entries _ h e h1

theorem funcFree_mapIndexR (entries : List (RVal × RVal)) (k : RVal)
    (h : funcFreePairs entries = true) : funcFree (mapIndexR entries k) = true := by
  unfold mapIndexR
  rcases h1 : entries.find? (fun e => goKeyEq e.1 k) with _ | e
  · simp only [h1]
    exact funcFree_invalid
  · simp only [h1]
    exact funcFree_find_pair entries _ h e h1

theorem funcFree_lookupInContext (m : Context) (key : String) (ic : Bool)
    (h : ∀ kv ∈ m, funcFree kv.2 = true) :
    ∀ v, lookupInContext m key ic = some v → funcFree v = true := by
  intro v hv
  unfold lookupInContext at hv
  rcases h1 : m.find? (fun kv => kv.1 == key) with _ | kv
  · rw [h1] at hv
    dsimp only at hv
    by_cases hic : ic = true
    · rw [if_pos hic] at hv
      rcases h2 : m.find? (fun kv => kv.1.toLower == key.toLower) with _ | kv2
      · rw [h2] at hv; cases hv
      · rw [h2] at hv
        simp only [Option.some.injEq] at hv
        rw [← hv]
        exact h kv2 (List.mem_of_find?_eq_some h2)
    · rw [if_neg hic] at hv; cases hv
  · rw [h1] at hv
    simp only [Option.some.injEq] at hv
    rw [← hv]
    exact h kv (List.mem_of_find?_eq_some h1)

theorem funcFree_lookupInitialValue (ctx : ExecutionContext) (key : String)
    (hctx : CtxFuncFree ctx) : funcFree (lookupInitialValue ctx key) = true := by
  unfold lookupInitialValue
  rcases h1 : lookupInContext ctx.Private key ctx.IgnoreVariableCase with _ | v
  · simp only [h1]
    rcases h2 : lookupInContext ctx.Public key ctx.IgnoreVariableCase with _ | v2
    · simp only [h2]
      exact funcFree_invalid
    · simp only [h2]
      exact funcFree_lookupInContext _ _ _ hctx.1 v2 h2
  · simp only [h1]
    exact funcFree_lookupInContext _ _ _ hctx.2 v h1

theorem methodByName_none_of_funcFree : ∀ (c : RVal) (n : String), funcFree c = true →
    methodByName c n = none
  | .ptr t, n, h => by
    rw [methodByName]
    rw [funcFree] at h
    exact methodByName_none_of_funcFree t n h
  | .strct fs ms, n, h => by
    rw [methodByName]
    rw [funcFree, Bool.and_eq_true] at h
    have : ms = [] := by
      cases ms with
      | nil => rfl
      | cons a b => simp [List.isEmpty] at h
    subst this
    rfl
  | .invalid, _, _ => by simp [methodByName]
  | .int _, _, _ => by simp [methodByName]
  | .uint _, _, _ => by simp [methodByName]
  | .float _, _, _ => by simp [methodByName]
  | .bool _, _, _ => by simp [methodByName]
  | .str _, _, _ => by simp [methodByName]
  | .slice _, _, _ => by simp [methodByName]
  | .array _, _, _ => by simp [methodByName]
  | .map _, _, _ => by simp [methodByName]
  | .time _, _, _ => by simp [methodByName]
  | .chan _, _, _ => by simp [methodByName]
  | .func _ _ _ _ _ _ _ _, _, _ => by simp [methodByName]
  | .nilptr, _, _ => by simp [methodByName]
  | .pvalue _ _, _, _ => by simp [methodByName]

theorem funcFree_strct_nil : funcFree (.strct [] []) = true := by simp [funcFree, funcFreeFields]

theorem funcFree_unpack (c : RVal) (s : Bool) (h : funcFree c = true) :
    funcFree (unpackValue c s).1 = true := by
  cases c <;> simp only [unpackValue] <;> first | exact h | (rw [funcFree] at h; exact h)

theorem funcFree_kind_ne_func2 (r : RVal) (h : funcFree r = true) :
    (r.kind == RKind.func) = false := by
  cases r <;> simp [RVal.kind]
  case func => simp [funcFree] at h

theorem resolveIntIndex_err (vrStr : String) (current : RVal) (part : VariablePart) :
    ∀ e, resolveIntIndex vrStr current part = .error e → TypeIncompatErr e := by
  intro e he
  cases current <;> simp only [resolveIntIndex] at he <;>
    first
      | (split at he <;> simp at he)
      | (simp only [Except.error.injEq] at he
         exact Or.inl ⟨_, _, he.symm⟩)

theorem resolveIntIndex_ok_funcFree (vrStr : String) (current : RVal) (part : VariablePart)
    (h : funcFree current = true) :
    ∀ r b, resolveIntIndex vrStr current part = .ok (r, b) → funcFree r = true := by
  intro r b hr
  cases current <;> simp only [resolveIntIndex] at hr <;> try (cases hr)
  case str s =>
    split at hr
    · simp only [Except.ok.injEq, Prod.mk.injEq] at hr
      rw [← hr.1]
      simp [funcFree]
    · simp only [Except.ok.injEq, Prod.mk.injEq] at hr
      rw [← hr.1]
      exact funcFree_invalid
  case array xs =>
    rw [funcFree] at h
    split at hr <;> simp only [Except.ok.injEq, Prod.mk.injEq] at hr <;> rw [← hr.1]
    · exact funcFreeList_getD xs h _
    · exact funcFree_invalid
  case slice xs =>
    rw [funcFree] at h
    split at hr <;> simp only [Except.ok.injEq, Prod.mk.injEq] at hr <;> rw [← hr.1]
    · exact funcFreeList_getD xs h _
    · exact funcFree_invalid

/-! ### Error shapes and preservation along a path -/

theorem resolveIdentifier_err (vrStr : String) (current : RVal) (part : VariablePart) (ic : Bool) :
    ∀ e, resolveIdentifier vrStr current part ic = .error e → TypeIncompatErr e := by
  intro e he
  unfold resolveIdentifier at he
  cases hk : current.kind <;> rw [hk] at he <;> cases he <;> exact Or.inr ⟨_, _, rfl⟩

theorem resolveIdentifier_ok_funcFree (vrStr : String) (current : RVal) (part : VariablePart)
    (ic : Bool) (h : funcFree current = true) :
    ∀ r b, resolveIdentifier vrStr current part ic = .ok (r, b) → funcFree r = true := by
  intro r b hr
  unfold resolveIdentifier at hr
  cases hk : current.kind <;> rw [hk] at hr <;> cases hr
  · have hp : funcFreePairs (entriesOfR current) = true := by
      cases current <;> simp [entriesOfR, funcFreePairs]
      case map es => rw [funcFree] at h; exact h
    exact funcFree_resolveMapStringKey _ _ _ hp
  · exact funcFree_resolveStructField current part.s ic h

theorem resolveSubscript_err (ctx : ExecutionContext) (vrStr : String) (current : RVal)
    (part : VariablePart)
    (hsub : ∀ se, part.subscript = some se → ∃ x, se.res = .ok x) :
    ∀ e, resolveSubscript ctx vrStr current part = .error e → TypeIncompatErr e := by
  intro e he
  unfold resolveSubscript at he
  rcases hs : part.subscript with _ | se
  · rw [hs] at he
    cases current <;> dsimp only at he <;>
      (repeat' split at he) <;> cases he <;> exact Or.inl ⟨_, _, rfl⟩
  · rw [hs] at he
    dsimp only at he
    obtain ⟨x, hx⟩ := hsub se hs
    rw [hx] at he
    dsimp only at he
    cases current <;> dsimp only at he <;>
      (repeat' split at he) <;> cases he <;> exact Or.inl ⟨_, _, rfl⟩


theorem resolveSubscript_ok_funcFree (ctx : ExecutionContext) (vrStr : String) (current : RVal)
    (part : VariablePart) (h : funcFree current = true) :
    ∀ r b, resolveSubscript ctx vrStr current part = .ok (r, b) → funcFree r = true := by
  intro r b hr
  unfold resolveSubscript at hr
  rcases hs : part.subscript with _ | se
  · rw [hs] at hr
    dsimp only at hr
    cases current <;> dsimp only at hr
    case str s =>
      split at hr <;> cases hr
      · simp [funcFree]
      · exact funcFree_invalid
    case array xs =>
      rw [funcFree] at h
      split at hr <;> cases hr
      · exact funcFreeList_getD xs h _
      · exact funcFree_invalid
    case slice xs =>
      rw [funcFree] at h
      split at hr <;> cases hr
      · exact funcFreeList_getD xs h _
      · exact funcFree_invalid
    case strct fs ms =>
      cases hr
      exact funcFree_resolveStructField _ _ _ h
    case time t =>
      cases hr
      exact funcFree_resolveStructField _ _ _ h
    case map entries =>
      rw [funcFree] at h
      split at hr
      · cases hr
        exact funcFree_invalid
      · split at hr
        · split at hr <;> cases hr
          · exact funcFree_resolveMapStringKey _ _ _ h
          · exact funcFree_mapIndexR _ _ h
        · cases hr
          exact funcFree_invalid
    all_goals cases hr
  · rw [hs] at hr
    dsimp only at hr
    rcases hres : se.res with e | sv
    · rw [hres] at hr
      cases hr
    · rw [hres] at hr
      dsimp only at hr
      cases current <;> dsimp only at hr
      case str s =>
        split at hr <;> cases hr
        · simp [funcFree]
        · exact funcFree_invalid
      case array xs =>
        rw [funcFree] at h
        split at hr <;> cases hr
        · exact funcFreeList_getD xs h _
        · exact funcFree_invalid
      case slice xs =>
        rw [funcFree] at h
        split at hr <;> cases hr
        · exact funcFreeList_getD xs h _
        · exact funcFree_invalid
      case strct fs ms =>
        cases hr
        exact funcFree_resolveStructField _ _ _ h
      case time t =>
        cases hr
        exact funcFree_resolveStructField _ _ _ h
      case map entries =>
        rw [funcFree] at h
        split at hr
        · cases hr
          exact funcFree_invalid
        · split at hr
          · split at hr <;> cases hr
            · exact funcFree_resolveMapStringKey _ _ _ h
            · exact funcFree_mapIndexR _ _ h
          · cases hr
            exact funcFree_invalid
      all_goals cases hr

theorem resolveNextPart_err (ctx : ExecutionContext) (vrStr : String) (current : RVal)
    (part : VariablePart)
    (hplain : PlainPart part) :
    ∀ e, resolveNextPart ctx vrStr current part = .error e → TypeIncompatErr e := by
  intro e he
  unfold resolveNextPart at he
  have hpbt : ∀ cur e2, resolvePartByType ctx vrStr cur part = .error e2 → TypeIncompatErr e2 := by
    intro cur e2 he2
    unfold resolvePartByType at he2
    rcases hplain.1 with ht | ht | ht <;> rw [ht] at he2
    · exact resolveIntIndex_err vrStr cur part e2 he2
    · exact resolveIdentifier_err vrStr cur part ctx.IgnoreVariableCase e2 he2
    · exact resolveSubscript_err ctx vrStr cur part hplain.2.2 e2 he2
  rcases hm : (if part.typ = PartTyp.ident then methodByName current part.s else none) with _ | f
  · rw [hm] at he
    dsimp only at he
    cases current <;> first
      | (exact hpbt _ _ he)
      | (cases he)
  · rw [hm] at he
    cases he

theorem resolveNextPart_ok_funcFree (ctx : ExecutionContext) (vrStr : String) (current : RVal)
    (part : VariablePart) (h : funcFree current = true) :
    ∀ r b, resolveNextPart ctx vrStr current part = .ok (r, b) → funcFree r = true := by
  intro r b hr
  unfold resolveNextPart at hr
  have hpbt : ∀ cur, funcFree cur = true →
      ∀ r2 b2, resolvePartByType ctx vrStr cur part = .ok (r2, b2) → funcFree r2 = true := by
    intro cur hcur r2 b2 hr2
    unfold resolvePartByType at hr2
    cases ht : part.typ <;> rw [ht] at hr2
    · exact resolveIntIndex_ok_funcFree vrStr cur part hcur r2 b2 hr2
    · exact resolveIdentifier_ok_funcFree vrStr cur part ctx.IgnoreVariableCase hcur r2 b2 hr2
    · exact resolveSubscript_ok_funcFree ctx vrStr cur part hcur r2 b2 hr2
    · cases hr2
    · cases hr2
    · cases hr2
  rcases hm : (if part.typ = PartTyp.ident then methodByName current part.s else none) with _ | f
  · rw [hm] at hr
    dsimp only at hr
    split at hr
    · rename_i t
      have ht : funcFree t = true := by rw [funcFree] at h; exact h
      exact hpbt _ ht _ _ hr
    · cases hr
      exact funcFree_invalid
    · exact hpbt _ funcFree_strct_nil _ _ hr
    · exact hpbt _ h _ _ hr
  · rw [hm] at hr
    by_cases hi : part.typ = PartTyp.ident
    · rw [if_pos hi] at hm
      rw [methodByName_none_of_funcFree current part.s h] at hm
      cases hm
    · rw [if_neg hi] at hm
      cases hm


theorem resolveSteps_err_shape (ctx : ExecutionContext)
    (hdeep : ctx.DeepResolve = false) (hctx : CtxFuncFree ctx) (vrStr : String) :
    ∀ (parts : List VariablePart) (idx : Nat) (current : RVal) (isSafe : Bool),
    (∀ p ∈ parts, PlainPart p) →
    (idx ≠ 0 → funcFree current = true) →
    ∀ e, resolveSteps ctx vrStr parts idx current isSafe = .error e → TypeIncompatErr e := by
  intro parts
  induction parts with
  | nil => intro idx current isSafe _ _ e h; cases h
  | cons part rest ih =>
    intro idx current isSafe hplain hff e h
    have hpart : PlainPart part := hplain part (List.mem_cons_self part rest)
    have hrest : ∀ p ∈ rest, PlainPart p := fun p hp => hplain p (List.mem_cons_of_mem _ hp)
    rw [resolveSteps] at h
    rcases hstep : (if idx = 0 then (.ok (lookupInitialValue ctx part.s, false) : Except GoErr (RVal × Bool))
        else resolveNextPart ctx vrStr current part) with e0 | p2
    · rw [hstep] at h
      dsimp only at h
      have he : e0 = e := (Except.error.injEq _ _).mp h
      subst he
      by_cases hidx : idx = 0
      · rw [if_pos hidx] at hstep
        cases hstep
      · rw [if_neg hidx] at hstep
        exact resolveNextPart_err ctx vrStr current part hpart e0 hstep
    · rw [hstep] at h
      dsimp only at h
      obtain ⟨current0, isNil⟩ := p2
      have hff0 : funcFree current0 = true := by
        by_cases hidx : idx = 0
        · rw [if_pos hidx] at hstep
          cases hstep
          exact funcFree_lookupInitialValue ctx part.s hctx
        · rw [if_neg hidx] at hstep
          exact resolveNextPart_ok_funcFree ctx vrStr current part (hff hidx) _ _ hstep
      by_cases hnil : isNil = true
      · rw [if_pos hnil] at h
        cases h
      · rw [if_neg hnil] at h
        by_cases hval : (¬ current0.isValid = true)
        · rw [if_pos hval] at h
          cases h
        · rw [if_neg hval] at h
          dsimp only at h
          have hfc : (part.isFunctionCall
              || ((unpackValue current0 isSafe).1.kind == RKind.func)) = false := by
            rw [hpart.2.1, funcFree_kind_ne_func2 _ (funcFree_unpack current0 isSafe hff0)]
            rfl
          simp only [hfc, Bool.false_eq_true, if_false] at h
          rcases hu : unpackValue current0 isSafe with ⟨c2, s2⟩
          rw [hu] at h
          dsimp only at h
          have hffc2 : funcFree c2 = true := by
            have := funcFree_unpack current0 isSafe hff0
            rw [hu] at this
            exact this
          by_cases hval2 : (¬ c2.isValid = true)
          · rw [if_pos hval2] at h
            cases h
          · rw [if_neg hval2] at h
            simp only [hdeep, Bool.false_eq_true, if_false] at h
            exact ih (idx + 1) c2 s2 hrest (fun _ => hffc2) e h

theorem scanAnon_flat (fields : List (String × Bool × RVal)) (name : String) (ic : Bool)
    (h : ∀ f ∈ fields, f.2.1 = false) : scanAnon fields name ic = .invalid := by
  induction fields with
  | nil => rw [scanAnon]
  | cons f rest ih =>
    obtain ⟨n, anon, v⟩ := f
    have ha : anon = false := h _ (List.mem_cons_self _ _)
    rw [scanAnon, ha]
    simp only [Bool.false_eq_true, if_false]
    exact ih (fun g hg => h g (List.mem_cons_of_mem _ hg))

/-! ### The claims -/

/-- Claim C1: with autoescape on, a variable node skips the autoescape filter
whenever the filter chain contains a filter named safe, or the evaluated value
already carries the safe flag, or the value is not string-kind; it applies the
filter exactly when none of these holds (escapeFn is the filter registered
under the autoescape filter name, none when unregistered). -/
theorem autoescape_gating (nv : NodeVariable) (ctx : ExecutionContext)
    (escapeFn : Option (Value → Except GoErr Value)) (v : Value)
    (hauto : ctx.Autoescape = true)
    (heval : nv.expr.Evaluate ctx = .ok v) :
    (nv.expr.FilterApplied "safe" = true → NodeVariable.Evaluate nv ctx escapeFn = .ok v) ∧
    (v.safe = true → NodeVariable.Evaluate nv ctx escapeFn = .ok v) ∧
    (v.IsString = false → NodeVariable.Evaluate nv ctx escapeFn = .ok v) ∧
    (nv.expr.FilterApplied "safe" = false → v.safe = false → v.IsString = true →
      NodeVariable.Evaluate nv ctx escapeFn =
        match escapeFn with
        | some f => f v
        | none => .ok v) := by
  unfold NodeVariable.Evaluate
  rw [heval]
  dsimp only
  refine ⟨?_, ?_, ?_, ?_⟩
  · intro hs
    rw [hs]
    simp
  · intro hs
    rw [hs]
    simp
  · intro hs
    rw [hs]
    simp
  · intro h1 h2 h3
    rw [h1, h2, h3, hauto]
    simp only [Bool.not_false, Bool.true_and, Bool.and_true, if_true]

/-- The gating at a concrete input: an unsafe string literal under autoescape
goes through the registered escape filter. -/
theorem autoescape_gating_witness :
    NodeVariable.Evaluate ⟨⟨.litRes (AsValue (.str "x")), []⟩⟩ { Autoescape := true }
      (some (fun _ => .ok (AsSafeValue (.str "esc")))) = .ok (AsSafeValue (.str "esc")) :=
  (autoescape_gating ⟨⟨.litRes (AsValue (.str "x")), []⟩⟩ { Autoescape := true }
      (some (fun _ => .ok (AsSafeValue (.str "esc")))) (AsValue (.str "x"))
      rfl rfl).2.2.2 rfl rfl rfl

/-- Claim C2: under a func-free context and plain non-call parts, path
resolution errs only with a cantAccessIndex or cantAccessField error, i.e. for
type-incompatible access; an integer index errs exactly on kinds other than
string/array/slice and a named part exactly on kinds other than struct/map;
an out-of-range index, a missing flat struct field, a missing map key and a
nil pointer mid-path each terminate the whole remaining path with the nil
Value instead. -/
theorem missing_access_yields_nil (ctx : ExecutionContext)
    (hdeep : ctx.DeepResolve = false) (hctx : CtxFuncFree ctx)
    (hic : ctx.IgnoreVariableCase = false) (vrStr : String) :
    (∀ (parts : List VariablePart) (idx : Nat) (current : RVal) (isSafe : Bool),
        (∀ p ∈ parts, PlainPart p) → (idx ≠ 0 → funcFree current = true) →
        ∀ e, resolveSteps ctx vrStr parts idx current isSafe = .error e → TypeIncompatErr e) ∧
    (∀ (current : RVal) (part : VariablePart),
        (∃ e, resolveIntIndex vrStr current part = .error e) ↔
          current.kind ≠ .str ∧ current.kind ≠ .array ∧ current.kind ≠ .slice) ∧
    (∀ (current : RVal) (part : VariablePart) (ic : Bool),
        (∃ e, resolveIdentifier vrStr current part ic = .error e) ↔
          current.kind ≠ .struct ∧ current.kind ≠ .map) ∧
    (∀ (xs : List RVal) (part : VariablePart) (rest : List VariablePart)
        (idx : Nat) (isSafe : Bool), idx ≠ 0 → part.typ = .int →
        ¬ (0 ≤ part.i ∧ part.i < (xs.length : Int)) →
        resolveSteps ctx vrStr (part :: rest) idx (.slice xs) isSafe = .ok nilValue) ∧
    (∀ (fields : List (String × Bool × RVal)) (part : VariablePart)
        (rest : List VariablePart) (idx : Nat) (isSafe : Bool), idx ≠ 0 →
        part.typ = .ident → (∀ f ∈ fields, f.2.1 = false) →
        findFieldDirect fields part.s = none →
        resolveSteps ctx vrStr (part :: rest) idx (.strct fields []) isSafe = .ok nilValue) ∧
    (∀ (entries : List (RVal × RVal)) (part : VariablePart)
        (rest : List VariablePart) (idx : Nat) (isSafe : Bool), idx ≠ 0 →
        part.typ = .ident →
        entries.find? (fun e => goKeyEq e.1 (.str part.s)) = none →
        resolveSteps ctx vrStr (part :: rest) idx (.map entries) isSafe = .ok nilValue) ∧
    (∀ (part : VariablePart) (rest : List VariablePart) (idx : Nat) (isSafe : Bool),
        idx ≠ 0 → part.typ = .ident →
        resolveSteps ctx vrStr (part :: rest) idx .nilptr isSafe = .ok nilValue) := by
  refine ⟨resolveSteps_err_shape ctx hdeep hctx vrStr, ?_, ?_, ?_, ?_, ?_, ?_⟩
  · intro current part
    cases current <;> simp [resolveIntIndex, RVal.kind] <;> split <;> simp
  · intro current part ic
    cases current <;> simp [resolveIdentifier, RVal.kind]
  · intro xs part rest idx isSafe hidx htyp hrange
    rw [resolveSteps]
    rw [if_neg hidx]
    have hnext : resolveNextPart ctx vrStr (.slice xs) part = .ok (.invalid, true) := by
      unfold resolveNextPart
      have : (if part.typ = PartTyp.ident then methodByName (.slice xs) part.s else none)
          = none := by
        split <;> simp [methodByName]
      rw [this]
      dsimp only
      unfold resolvePartByType
      rw [htyp]
      simp only [resolveIntIndex]
      rw [if_neg hrange]
    rw [hnext]
    rfl
  · intro fields part rest idx isSafe hidx htyp hflat hmiss
    rw [resolveSteps]
    rw [if_neg hidx]
    have hnext : resolveNextPart ctx vrStr (.strct fields []) part = .ok (.invalid, false) := by
      unfold resolveNextPart
      have hm : (if part.typ = PartTyp.ident then methodByName (.strct fields []) part.s
          else none) = none := by
        split <;> simp [methodByName]
      rw [hm]
      dsimp only
      unfold resolvePartByType
      rw [htyp]
      unfold resolveIdentifier
      have hk : RVal.kind (.strct fields []) = .struct := rfl
      rw [hk]
      unfold resolveStructField
      rw [hmiss, hic]
      dsimp only
      rw [scanAnon_flat fields part.s false hflat]
      rfl
    rw [hnext]
    rfl
  · intro entries part rest idx isSafe hidx htyp hmiss
    rw [resolveSteps]
    rw [if_neg hidx]
    have hnext : resolveNextPart ctx vrStr (.map entries) part = .ok (.invalid, false) := by
      unfold resolveNextPart
      have hm : (if part.typ = PartTyp.ident then methodByName (.map entries) part.s
          else none) = none := by
        split <;> simp [methodByName]
      rw [hm]
      dsimp only
      unfold resolvePartByType
      rw [htyp]
      unfold resolveIdentifier
      have hk : RVal.kind (.map entries) = .map := rfl
      rw [hk]
      simp only [entriesOfR]
      unfold resolveMapStringKey
      rw [hmiss, hic]
      rfl
    rw [hnext]
    rfl
  · intro part rest idx isSafe hidx htyp
    rw [resolveSteps]
    rw [if_neg hidx]
    have hnext : resolveNextPart ctx vrStr .nilptr part = .ok (.invalid, true) := by
      unfold resolveNextPart
      have hm : (if part.typ = PartTyp.ident then methodByName .nilptr part.s
          else none) = none := by
        split <;> simp [methodByName]
      rw [hm]
    rw [hnext]
    rfl

/-- The nil-result behaviour at a concrete input: index 5 into a one-element
slice resolves to the nil Value under the default context. -/
theorem missing_access_yields_nil_witness :
    resolveSteps {} "v" [{ typ := .int, i := 5 }] 1 (.slice [.int 1]) false = .ok nilValue :=
  (missing_access_yields_nil {} rfl
      ⟨fun kv h => absurd h (List.not_mem_nil kv), fun kv h => absurd h (List.not_mem_nil kv)⟩
      rfl "v").2.2.2.1 [.int 1] { typ := .int, i := 5 } [] 1 false
    (by decide) rfl (by decide)

/-- Claim C3: a function invocation at depth 0 is rejected under
DisableContextFunctions, one at depth at least 1 under
DisableNestedFunctions; with both flags off the call proceeds to
handleFunctionCall, and resolve can produce no disabledFunction error at
all. -/
theorem sandbox_depth_gating (ctx : ExecutionContext) :
    (∀ (part : VariablePart) (rest : List VariablePart),
      ctx.DisableContextFunctions = true →
      part.typ = .ident →
      (lookupInitialValue ctx part.s).isValid = true →
      (part.isFunctionCall = true ∨
        (unpackValue (lookupInitialValue ctx part.s) false).1.kind = .func) →
      resolve ctx ⟨part :: rest⟩ = .error .disabledFunction) ∧
    (∀ (vrStr : String) (part : VariablePart) (rest : List VariablePart) (idx : Nat)
        (prev : RVal) (isSafe : Bool) (res : RVal),
      ctx.DisableNestedFunctions = true →
      idx ≠ 0 →
      resolveNextPart ctx vrStr prev part = .ok (res, false) →
      res.isValid = true →
      (part.isFunctionCall = true ∨ (unpackValue res isSafe).1.kind = .func) →
      resolveSteps ctx vrStr (part :: rest) idx prev isSafe = .error .disabledFunction) ∧
    (∀ (vrStr : String) (part : VariablePart) (rest : List VariablePart) (idx : Nat)
        (prev : RVal) (isSafe : Bool) (res : RVal),
      ctx.DisableContextFunctions = false → ctx.DisableNestedFunctions = false →
      ctx.DeepResolve = false →
      idx ≠ 0 →
      resolveNextPart ctx vrStr prev part = .ok (res, false) →
      res.isValid = true →
      (part.isFunctionCall = true ∨ (unpackValue res isSafe).1.kind = .func) →
      resolveSteps ctx vrStr (part :: rest) idx prev isSafe =
        (match handleFunctionCall vrStr (unpackValue res isSafe).1 part with
         | .error e => .error e
         | .ok (c2, s2) =>
           if ¬ c2.isValid = true then .ok nilValue
           else resolveSteps ctx vrStr rest (idx + 1) c2 s2)) ∧
    (ctx.DisableContextFunctions = false → ctx.DisableNestedFunctions = false →
      ∀ vr : VariableResolver, NoSandboxErr vr.parts →
      resolve ctx vr ≠ .error .disabledFunction) := by
  refine ⟨?_, ?_, ?_, ?_⟩
  · intro part rest hdcf htyp hval hfn
    have hcond : (part.isFunctionCall ||
        (unpackValue (lookupInitialValue ctx part.s) false).1.kind == RKind.func) = true := by
      rcases hfn with h | h <;> simp [h]
    unfold resolve
    simp only [List.head?]
    rw [htyp]
    simp only [reduceCtorEq, if_false]
    rw [resolveSteps]
    simp only [if_pos rfl]
    simp [hval, hcond, hdcf]
  · intro vrStr part rest idx prev isSafe res hdnf hidx hnext hval hfn
    have hcond : (part.isFunctionCall || (unpackValue res isSafe).1.kind == RKind.func) = true := by
      rcases hfn with h | h <;> simp [h]
    have hpos : idx > 0 := Nat.pos_of_ne_zero hidx
    rw [resolveSteps]
    rw [if_neg hidx, hnext]
    simp [hval, hcond, hdnf, hpos]
  · intro vrStr part rest idx prev isSafe res hdcf hdnf hdeep hidx hnext hval hfn
    have hcond : (part.isFunctionCall || (unpackValue res isSafe).1.kind == RKind.func) = true := by
      rcases hfn with h | h <;> simp [h]
    have hpos : idx > 0 := Nat.pos_of_ne_zero hidx
    rw [resolveSteps]
    rw [if_neg hidx, hnext]
    dsimp only
    simp only [Bool.false_eq_true, if_false, hval, not_true, hcond, if_true, hdnf, hdcf, hpos,
      if_pos, Bool.not_false, ite_self, Bool.not_true, hdeep]
  · intro hdcf hdnf vr hns
    unfold resolve
    cases hhead : vr.parts.head? with
    | none => intro hcon; cases hcon
    | some p =>
      dsimp only
      by_cases ha : p.typ = PartTyp.array
      · rw [if_pos ha]
        unfold resolveArrayDefinition
        rcases hl : evalLitParts vr.parts with e | items
        · dsimp only
          intro hcon
          have : e = GoErr.disabledFunction := (Except.error.injEq _ _).mp hcon
          subst this
          exact evalLitParts_no_sandbox vr.parts hns hl
        · simp
      · rw [if_neg ha]
        by_cases hd : p.typ = PartTyp.dict
        · rw [if_pos hd]
          unfold resolveDictDefinition
          rcases hl : dictAccum vr.parts [] with e | es
          · dsimp only
            intro hcon
            have : e = GoErr.disabledFunction := (Except.error.injEq _ _).mp hcon
            subst this
            exact dictAccum_no_sandbox vr.parts hns [] hl
          · simp
        · rw [if_neg hd]
          exact resolveSteps_no_sandbox ctx hdcf hdnf (vrString vr) vr.parts 0 .invalid false hns

/-- Claim C4 (amended): Compare guards on reflect comparability first — an
invalid or non-comparable left operand yields -1, and a comparable left
against an invalid or non-comparable right yields 1 (a directly wrapped
slice or map is non-comparable, so it never reaches the length branch);
among comparable operands, int/int compares by Int64, float/float by float
order, time/time by before/after, bool/bool with true above false, and
slice/array or map pairs by length; a MIXED int/float pair falls through to
the default branch and compares the two formatted strings
case-sensitively, not the numeric values. -/
theorem compare_amended (v w : Value) :
    ((v.val.isValid = false ∨ comparableR v.val = false) → v.Compare w = -1) ∧
    (v.val.isValid = true → comparableR v.val = true →
      (w.val.isValid = false ∨ comparableR w.val = false) → v.Compare w = 1) ∧
    (v.val.isValid = true → comparableR v.val = true →
     w.val.isValid = true → comparableR w.val = true →
      ((v.IsInteger = true → w.IsInteger = true → v.Compare w = cmp3 v.Int64 w.Int64) ∧
       (v.IsFloat = true → w.IsFloat = true →
         v.Compare w = (if GoFloat.lt v.Float w.Float then -1
           else if GoFloat.lt w.Float v.Float then 1 else 0)) ∧
       (v.IsInteger = true → w.IsFloat = true → v.Compare w = strCmp3 v.String w.String) ∧
       (v.IsFloat = true → w.IsInteger = true → v.Compare w = strCmp3 v.String w.String) ∧
       (v.IsTime = true → w.IsTime = true → v.Compare w = cmp3 v.Time w.Time) ∧
       (v.IsBool = true → w.IsBool = true →
         v.Compare w = (if v.Bool && !w.Bool then 1 else if w.Bool && !v.Bool then -1 else 0)) ∧
       (((v.IsSliceOrArray = true ∧ w.IsSliceOrArray = true) ∨
         (v.IsMap = true ∧ w.IsMap = true)) →
         v.Compare w = cmp3 (lenOfR (resolvedValue v.val)) (lenOfR (resolvedValue w.val))))) := by
  refine ⟨?_, ?_, ?_⟩
  · intro h
    rcases h with h | h <;> simp [Value.Compare, Value.compare, h]
  · intro h1 h2 h
    rcases h with h | h <;> simp [Value.Compare, Value.compare, h1, h2, h]
  · intro h1 h2 h3 h4
    refine ⟨?_, ?_, ?_, ?_, ?_, ?_, ?_⟩
    · intro hvi hwi
      simp [Value.Compare, Value.compare, h1, h2, h3, h4, hvi, hwi]
    · intro hvf hwf
      have hvi : v.IsInteger = false := by
        simp only [Value.IsFloat, beq_iff_eq] at hvf
        simp [Value.IsInteger, hvf]
      have hwi : w.IsInteger = false := by
        simp only [Value.IsFloat, beq_iff_eq] at hwf
        simp [Value.IsInteger, hwf]
      simp [Value.Compare, Value.compare, h1, h2, h3, h4, hvi, hwi, hvf, hwf]
    · intro hvi hwf
      simp only [Value.IsInteger, Bool.or_eq_true, beq_iff_eq] at hvi
      simp only [Value.IsFloat, beq_iff_eq] at hwf
      have hwi : w.IsInteger = false := by simp [Value.IsInteger, hwf]
      have hvf : v.IsFloat = false := by rcases hvi with h | h <;> simp [Value.IsFloat, h]
      have hvt : v.IsTime = false := by
        refine IsTime_false_of_kind v ?_
        rcases hvi with h | h <;> simp [h]
      have hwt : w.IsTime = false := IsTime_false_of_kind w (by simp [hwf])
      have hvb : v.IsBool = false := by rcases hvi with h | h <;> simp [Value.IsBool, h]
      have hvs : v.IsSliceOrArray = false := by
        rcases hvi with h | h <;> simp [Value.IsSliceOrArray, h]
      have hws : w.IsSliceOrArray = false := by simp [Value.IsSliceOrArray, hwf]
      have hvm : v.IsMap = false := by rcases hvi with h | h <;> simp [Value.IsMap, h]
      have hwm : w.IsMap = false := by simp [Value.IsMap, hwf]
      have hvn : v.IsNil = false := by
        rcases hvi with h | h <;> exact IsNil_false_of_kind _ _ h (by decide)
      have hwn : w.IsNil = false := IsNil_false_of_kind _ _ hwf (by decide)
      have hvi2 : v.IsInteger = true := by
        rcases hvi with h | h <;> simp [Value.IsInteger, h]
      simp [Value.Compare, Value.compare, h1, h2, h3, h4, hvi2, hwi, hvf, hwf, hvt, hwt,
        hvb, hvs, hws, hvm, hwm, hvn, hwn, strCmp3]
    · intro hvf hwi
      simp only [Value.IsInteger, Bool.or_eq_true, beq_iff_eq] at hwi
      simp only [Value.IsFloat, beq_iff_eq] at hvf
      have hvi : v.IsInteger = false := by simp [Value.IsInteger, hvf]
      have hwf : w.IsFloat = false := by rcases hwi with h | h <;> simp [Value.IsFloat, h]
      have hvt : v.IsTime = false := IsTime_false_of_kind v (by simp [hvf])
      have hwt : w.IsTime = false := by
        refine IsTime_false_of_kind w ?_
        rcases hwi with h | h <;> simp [h]
      have hvb : v.IsBool = false := by simp [Value.IsBool, hvf]
      have hvs : v.IsSliceOrArray = false := by simp [Value.IsSliceOrArray, hvf]
      have hws : w.IsSliceOrArray = false := by
        rcases hwi with h | h <;> simp [Value.IsSliceOrArray, h]
      have hvm : v.IsMap = false := by simp [Value.IsMap, hvf]
      have hwm : w.IsMap = false := by rcases hwi with h | h <;> simp [Value.IsMap, h]
      have hvn : v.IsNil = false := IsNil_false_of_kind _ _ hvf (by decide)
      have hwn : w.IsNil = false := by
        rcases hwi with h | h <;> exact IsNil_false_of_kind _ _ h (by decide)
      have hvf2 : v.IsFloat = true := by simp [Value.IsFloat, hvf]
      simp [Value.Compare, Value.compare, h1, h2, h3, h4, hvi, hwi, hvf2, hwf, hvt, hwt,
        hvb, hvs, hws, hvm, hwm, hvn, hwn, strCmp3]
    · intro hvt hwt
      have hvi : v.IsInteger = false := by
        unfold Value.IsTime at hvt
        cases hv : v.val <;> rw [hv] at hvt <;> try cases hvt
        simp [Value.IsInteger, hv, resolvedValue, RVal.kind]
      have hwi : w.IsInteger = false := by
        unfold Value.IsTime at hwt
        cases hw : w.val <;> rw [hw] at hwt <;> try cases hwt
        simp [Value.IsInteger, hw, resolvedValue, RVal.kind]
      have hvf : v.IsFloat = false := by
        unfold Value.IsTime at hvt
        cases hv : v.val <;> rw [hv] at hvt <;> try cases hvt
        simp [Value.IsFloat, hv, resolvedValue, RVal.kind]
      have hwf : w.IsFloat = false := by
        unfold Value.IsTime at hwt
        cases hw : w.val <;> rw [hw] at hwt <;> try cases hwt
        simp [Value.IsFloat, hw, resolvedValue, RVal.kind]
      simp [Value.Compare, Value.compare, h1, h2, h3, h4, hvi, hwi, hvf, hwf, hvt, hwt]
    · intro hvb hwb
      simp only [Value.IsBool, beq_iff_eq] at hvb hwb
      have hvi : v.IsInteger = false := by simp [Value.IsInteger, hvb]
      have hwi : w.IsInteger = false := by simp [Value.IsInteger, hwb]
      have hvf : v.IsFloat = false := by simp [Value.IsFloat, hvb]
      have hwf : w.IsFloat = false := by simp [Value.IsFloat, hwb]
      have hvt : v.IsTime = false := IsTime_false_of_kind v (by simp [hvb])
      have hwt : w.IsTime = false := IsTime_false_of_kind w (by simp [hwb])
      simp [Value.Compare, Value.compare, h1, h2, h3, h4, hvi, hwi, hvf, hwf, hvt, hwt,
        Value.IsBool, hvb, hwb]
    · intro hsm
      have hkinds : ((resolvedValue v.val).kind = RKind.slice ∨
          (resolvedValue v.val).kind = RKind.array ∨ (resolvedValue v.val).kind = RKind.map) ∧
          ((resolvedValue w.val).kind = RKind.slice ∨
          (resolvedValue w.val).kind = RKind.array ∨ (resolvedValue w.val).kind = RKind.map) := by
        rcases hsm with ⟨ha, hb⟩ | ⟨ha, hb⟩ <;>
          simp only [Value.IsSliceOrArray, Value.IsMap, Bool.or_eq_true, beq_iff_eq] at ha hb <;>
          tauto
      obtain ⟨hkv, hkw⟩ := hkinds
      have hvi : v.IsInteger = false := by
        rcases hkv with h | h | h <;> simp [Value.IsInteger, h]
      have hwi : w.IsInteger = false := by
        rcases hkw with h | h | h <;> simp [Value.IsInteger, h]
      have hvf : v.IsFloat = false := by
        rcases hkv with h | h | h <;> simp [Value.IsFloat, h]
      have hwf : w.IsFloat = false := by
        rcases hkw with h | h | h <;> simp [Value.IsFloat, h]
      have hvt : v.IsTime = false := by
        refine IsTime_false_of_kind v ?_
        rcases hkv with h | h | h <;> simp [h]
      have hwt : w.IsTime = false := by
        refine IsTime_false_of_kind w ?_
        rcases hkw with h | h | h <;> simp [h]
      have hvb : v.IsBool = false := by
        rcases hkv with h | h | h <;> simp [Value.IsBool, h]
      have hwb : w.IsBool = false := by
        rcases hkw with h | h | h <;> simp [Value.IsBool, h]
      have hcond : ((v.IsSliceOrArray && w.IsSliceOrArray) || (v.IsMap && w.IsMap)) = true := by
        rcases hsm with ⟨ha, hb⟩ | ⟨ha, hb⟩ <;> simp [ha, hb]
      simp [Value.Compare, Value.compare, h1, h2, h3, h4, hvi, hwi, hvf, hwf, hvt, hwt,
        hvb, hwb, hcond]

/-- Compare(int 10, float 2) is -1 because "10" sorts below "2.000000" as a
string, although 2 < 10 as numbers; and directly wrapped slices compare as
non-comparable (-1), not by length. -/
theorem compare_counterexample :
    Value.Compare (AsValue (.int 10)) (AsValue (.float (.fin 2))) = -1 ∧
    GoFloat.lt (.fin 2) (.fin 10) = true ∧
    Value.Compare (AsValue (.slice [.int 1, .int 2])) (AsValue (.slice [.int 3])) = -1 := by
  refine ⟨?_, by decide, ?_⟩
  · simp only [Value.Compare, Value.compare, comparableR]
    norm_num [AsValue, RVal.isValid, Value.IsInteger, Value.IsFloat, Value.IsTime, Value.IsBool,
      Value.IsSliceOrArray, Value.IsMap, Value.IsNil, resolvedValue, RVal.kind,
      Value.String, stringerOf, formatFloat, formatFixed6]
    decide
  · have hcomp : comparableR (RVal.slice [RVal.int 1, RVal.int 2]) = false := by
      simp [comparableR]
    simp [Value.Compare, Value.compare, AsValue, hcomp]

/-- Claim C5 (amended): IterateOrder over a map draws its keys from reflect
MapKeys, whose order Go leaves unspecified and randomized; with sorted
false no sorting is applied and iteration follows that unspecified order
exactly — it is not sorted in general; with sorted the keys are ordered by
the comparator, reversed comparator when reverse is set; the empty
callback runs exactly on the empty map. -/
theorem iterate_order_amended (entries : List (RVal × RVal)) (mapKeys : List RVal)
    (reverse : Bool) (hperm : mapKeys.Perm (entries.map Prod.fst)) :
    ((Value.IterateOrder (AsValue (.map entries)) mapKeys collectFn emptyMark ([], false)
        reverse true).1
       = ((if reverse then sortBy (fun a b => sortedKeysLess b a) mapKeys
           else sortBy sortedKeysLess mapKeys).map (fun k => (k, mapIndexR entries k)))) ∧
    ((Value.IterateOrder (AsValue (.map entries)) mapKeys collectFn emptyMark ([], false)
        reverse false).1
       = mapKeys.map (fun k => (k, mapIndexR entries k))) ∧
    (∀ sorted : Bool, entries = [] →
      (Value.IterateOrder (AsValue (.map entries)) mapKeys collectFn emptyMark ([], false)
        reverse sorted).2 = true) ∧
    (∀ sorted : Bool, entries ≠ [] →
      (Value.IterateOrder (AsValue (.map entries)) mapKeys collectFn emptyMark ([], false)
        reverse sorted).2 = false) := by
  have hres : resolvedValue (RVal.map entries) = RVal.map entries := rfl
  refine ⟨?_, ?_, ?_, ?_⟩
  · unfold Value.IterateOrder
    simp only [AsValue, hres]
    cases hr : reverse <;>
      simp [runIter_collect, List.map_map, emptyMark, Function.comp] <;>
      split <;> simp
  · unfold Value.IterateOrder
    simp only [AsValue, hres]
    simp [runIter_collect, List.map_map, emptyMark, Function.comp]
    split <;> simp
  · intro sorted hemp
    subst hemp
    have hk : mapKeys = [] := hperm.eq_nil
    subst hk
    unfold Value.IterateOrder
    cases sorted <;> cases reverse <;> rfl
  · intro sorted hne
    unfold Value.IterateOrder
    simp only [AsValue, hres]
    have hkne : mapKeys.length ≠ 0 := by
      rw [hperm.length_eq, List.length_map]
      simp [hne]
    have hlen : ∀ less : RVal → RVal → Bool, (sortBy less mapKeys).length ≠ 0 := by
      intro less
      rw [length_sortBy]
      exact hkne
    cases sorted <;> cases reverse <;>
      simp [runIter_collect, emptyMark, hkne, hlen]

/-- With sorted false and MapKeys yielding the order "b", "a" — one of the
orders the unspecified Go runtime may produce — iteration visits "b" before
"a", which is not the sorted key order. -/
theorem iterate_order_counterexample :
    (Value.IterateOrder (AsValue (.map [(.str "a", .int 2), (.str "b", .int 1)]))
        [.str "b", .str "a"] collectFn emptyMark ([], false) false false).1
      = [(.str "b", .int 1), (.str "a", .int 2)] ∧
    ([(.str "b", .int 1), (.str "a", .int 2)] :  List (RVal × RVal))
      ≠ [(.str "a", .int 2), (.str "b", .int 1)] := by
  constructor
  · rfl
  · intro h
    simp only [List.cons.injEq, Prod.mk.injEq, RVal.str.injEq] at h
    obtain ⟨⟨h1, -⟩, -⟩ := h
    exact absurd h1 (by decide)

/-- The unsorted-order equation at a concrete input: a one-key map visited
in the order MapKeys supplied. -/
theorem iterate_order_amended_witness :
    (Value.IterateOrder (AsValue (.map [(.str "a", .int 1)])) [.str "a"]
        collectFn emptyMark ([], false) false false).1 = [(.str "a", .int 1)] :=
  (iterate_order_amended [(.str "a", .int 1)] [.str "a"] false (List.Perm.refl _)).2.1

/-- Claim C6 (refuted by the code): the callable case of testCall.Evaluate
returns before the negate flag is applied, so with n bound to an int both
the plain and the negated test evaluate to false — the negated one should
have been true. -/
theorem callable_negate_ignored :
    TestCall.Evaluate (fun _ => none)
      { name := "callable", term := ⟨.varRes ⟨[{ typ := .ident, s := "n" }]⟩, []⟩, negate := true }
      { Public := [("n", .int 32)] } = .ok (AsValue (.bool false)) ∧
    TestCall.Evaluate (fun _ => none)
      { name := "callable", term := ⟨.varRes ⟨[{ typ := .ident, s := "n" }]⟩, []⟩, negate := false }
      { Public := [("n", .int 32)] } = .ok (AsValue (.bool false)) ∧
    (AsValue (RVal.bool false) : Value) ≠ AsValue (.bool true) := by
  refine ⟨rfl, rfl, by simp [AsValue]⟩

/-- Claim C7 (refuted by the code): the leading-0 octal branch of
string-to-integer coercion slices off s[2:] as the 0x/0b branches do,
dropping the first octal digit: Integer and Int64 coerce "0755" to 45
(octal "55"), not to 493 = 7*64+5*8+5. -/
theorem octal_string_coercion_bug :
    (AsValue (.str "0755")).Integer = 45 ∧ (AsValue (.str "0755")).Int64 = 45 ∧
    (45 : Int) ≠ 7 * 64 + 5 * 8 + 5 := by
  refine ⟨rfl, rfl, by decide⟩

/-- Claim C8: ExpectArgs accepts exactly a positional count in [min, max],
with max = -1 meaning unbounded, ignoring named arguments; its error names
the caller typ:name and states the permitted range and the received
count. -/
theorem expect_args_range (typ name : String) (min max : Int) (args : Args) :
    (ExpectArgs typ name min max args = none ↔
      min ≤ (args.Len : Int) ∧ (max = -1 ∨ (args.Len : Int) ≤ max)) ∧
    (∀ e, ExpectArgs typ name min max args = some e →
      e.Sender = typ ++ ":" ++ name ∧
      e.OrigError = "invalid parameter count: " ++ typ ++ " " ++ name ++ " expected "
        ++ argRangeStr min max ++ " parameter(s), received " ++ toString ((args.Len : Int))) := by
  unfold ExpectArgs
  dsimp only
  split
  next h =>
    refine ⟨by simp; omega, ?_⟩
    intro e he
    simp only [Option.some.injEq] at he
    rw [← he]
    exact ⟨rfl, rfl⟩
  next h =>
    push_neg at h
    refine ⟨by simp; omega, ?_⟩
    intro e he
    simp at he

/-- Claim C9 (amended): ExpectNamedArgs rejects any named argument whose name
is outside required and optional; it accepts exactly when, in addition, the
positional count is at most len(required) + len(optional) and every required
name beyond the positional prefix is supplied as a named argument — missing
required arguments ARE filled by name, and only positional arguments count
toward the range. -/
theorem expect_named_args_amended (typ name : String) (required optional : List String) (args : Args) :
    (ExpectNamedArgs typ name required optional args = none ↔
      ((∀ kv ∈ args.kwArgs, kv.1 ∈ required ∨ kv.1 ∈ optional) ∧
       args.Len ≤ required.length + optional.length ∧
       ∀ n ∈ required.drop args.Len, args.HasNamed n = true)) ∧
    (∀ e, ExpectNamedArgs typ name required optional args = some e →
      e.Sender = typ ++ ":" ++ name) := by
  have hsender : ∀ e, ExpectNamedArgs typ name required optional args = some e →
      e.Sender = typ ++ ":" ++ name := by
    intro e he
    unfold ExpectNamedArgs at he
    cases hfind : findInvalidName required optional args.kwArgs with
    | some bad =>
      rw [hfind] at he
      simp only [Option.some.injEq] at he
      rw [← he]
    | none =>
      rw [hfind] at he
      cases hb : namedArgsInvalid required optional args with
      | true =>
        rw [hb] at he
        simp only [if_true] at he
        simp only [Option.some.injEq] at he
        rw [← he]
      | false =>
        rw [hb] at he
        simp at he
  refine ⟨?_, hsender⟩
  unfold ExpectNamedArgs
  cases hfind : findInvalidName required optional args.kwArgs with
  | some bad =>
    have hnotall : ¬ (∀ kv ∈ args.kwArgs, kv.1 ∈ required ∨ kv.1 ∈ optional) := by
      intro hall
      rw [← findInvalidName_none_iff required optional args.kwArgs] at hall
      rw [hfind] at hall
      cases hall
    simp only [Option.some.injEq]
    constructor
    · intro h; cases h
    · rintro ⟨hall, -, -⟩
      exact absurd hall hnotall
  | none =>
    rw [findInvalidName_none_iff] at hfind
    cases hb : namedArgsInvalid required optional args with
    | true =>
      simp only [hb, if_true]
      constructor
      · intro h; cases h
      · rintro ⟨-, hbound, hfill⟩
        have := (namedArgsInvalid_false_iff required optional args).mpr ⟨hbound, hfill⟩
        rw [hb] at this
        cases this
    | false =>
      simp only [hb, if_false]
      have hiff := (namedArgsInvalid_false_iff required optional args).mp hb
      constructor
      · intro _
        exact ⟨hfind, hiff.1, hiff.2⟩
      · intro _
        rfl

/-- A bundle with one positional argument against two required names is
accepted because the second required name is supplied as a named argument:
the required list IS filled by name. -/
theorem expect_named_args_counterexample :
    ExpectNamedArgs "filter" "f" ["a", "b"] [] ⟨[nilValue], [("b", nilValue)]⟩ = none ∧
    Args.Len ⟨[nilValue], [("b", nilValue)]⟩ = 1 ∧
    (["a", "b"] : List String).length = 2 := by
  exact ⟨rfl, rfl, rfl⟩

/-- Claim C10: Negate inverts IsTrue for every Value — signed and unsigned
integers, floats including the infinities and NaN, strings, slices, arrays,
maps and channels by length, bools, structs, times, and the invalid and
unsupported kinds — although the representative Value it returns is not
always a 0/1 bool (a zero float negates to the float 1.1). -/
theorem negate_inverts_istrue (v : Value) : (v.Negate).IsTrue = !(v.IsTrue) := by
  unfold Value.Negate Value.IsTrue
  cases h : resolvedValue v.val with
  | int n =>
      have hi : v.Integer = n := by unfold Value.Integer; rw [h]
      by_cases hn : n = 0 <;>
        simp [hi, hn, AsValue, resolvedValue, Value.IsTrue]
  | uint u =>
      have hi : v.Integer = if (u : Int) > maxInt64 then maxInt64 else (u : Int) := by
        unfold Value.Integer; rw [h]
      by_cases hn : u = 0
      · simp [hi, hn, AsValue, resolvedValue, Value.IsTrue, maxInt64]
      · have hne : v.Integer ≠ 0 := by
          rw [hi]; split
          · norm_num [maxInt64]
          · omega
        simp [hne, hn, AsValue, resolvedValue, Value.IsTrue]
  | float f =>
      have hf : v.Float = f := by unfold Value.Float; rw [h]
      cases f with
      | fin q =>
          by_cases hq : q = 0 <;>
            simp [hf, hq, AsValue, resolvedValue, Value.IsTrue, GoFloat.feq]
      | posInf => simp [hf, AsValue, resolvedValue, Value.IsTrue, GoFloat.feq]
      | negInf => simp [hf, AsValue, resolvedValue, Value.IsTrue, GoFloat.feq]
      | nan => simp [hf, AsValue, resolvedValue, Value.IsTrue, GoFloat.feq]
  | bool b => cases b <;> simp [AsValue, resolvedValue, Value.IsTrue]
  | str s => by_cases hs : s.length = 0 <;> simp [hs, AsValue, resolvedValue, Value.IsTrue] <;> omega
  | slice xs => by_cases hx : xs.length = 0 <;> simp [hx, AsValue, resolvedValue, Value.IsTrue] <;> omega
  | array xs => by_cases hx : xs.length = 0 <;> simp [hx, AsValue, resolvedValue, Value.IsTrue] <;> omega
  | map es => by_cases hx : es.length = 0 <;> simp [hx, AsValue, resolvedValue, Value.IsTrue] <;> omega
  | chan sz => by_cases hx : sz = 0 <;> simp [hx, AsValue, resolvedValue, Value.IsTrue] <;> omega
  | strct fs ms => simp [AsValue, resolvedValue, Value.IsTrue]
  | time t => simp [AsValue, resolvedValue, Value.IsTrue]
  | invalid => simp [AsValue, resolvedValue, Value.IsTrue]
  | func a b c d e f g hh => simp [AsValue, resolvedValue, Value.IsTrue]
  | ptr t => simp [AsValue, resolvedValue, Value.IsTrue]
  | nilptr => simp [AsValue, resolvedValue, Value.IsTrue]
  | pvalue i s => simp [AsValue, resolvedValue, Value.IsTrue]

end Pongo2
